import Mathlib

/-!
Verification development for the Gossher inventory core: a shallow
embedding of the entity model (`internal/inventory/credential.go`,
`group.go`, the Host source, `config.go`), the inventory manager
(`internal/inventory/manager.go`) and the document repository
(`internal/storage/repository.go`), together with proofs about the
referential-integrity guards, the cascade on host removal, the recursive
group query, and the typed read/write layer.

Modelling conventions:
* Go `map[string]*T` collections become association lists
  `List (String × T)` with first-match lookup; keys are unique in every
  state the manager constructs.  Go map iteration order is unspecified,
  so every property proved here is insensitive to list order wherever the
  source iterates a map.
* Go methods that mutate the receiver become functions returning the new
  state paired with `Option MgrErr` (`none` = the Go method returned
  `nil`).
* The filesystem is a pure store; `os.WriteFile`/`os.Remove` are modelled
  as always succeeding (IO failures such as a full disk are outside the
  scope of the claims).
-/

namespace Gossher

/-- First-match lookup in an association list, as a Go map read. -/
def lookupA {α : Type} (l : List (String × α)) (k : String) : Option α :=
  match l with
  | [] => none
  | p :: rest => if p.1 = k then some p.2 else lookupA rest k

/-- Go map write `m[k] = v`: replace the binding in place if the key is
present, otherwise append a new binding. -/
def insertA {α : Type} (l : List (String × α)) (k : String) (v : α) :
    List (String × α) :=
  match l with
  | [] => [(k, v)]
  | p :: rest => if p.1 = k then (k, v) :: rest else p :: insertA rest k v

/-- Go map `delete(m, k)`: drop every binding of the key. -/
def eraseA {α : Type} (l : List (String × α)) (k : String) :
    List (String × α) :=
  match l with
  | [] => []
  | p :: rest => if p.1 = k then eraseA rest k else p :: eraseA rest k

/-- Document type tags (`internal/inventory/types` source,
`TypeHost | TypeGroup | TypeCredential | TypeConfig`). -/
def TypeHost : String := "host"

def TypeGroup : String := "group"

def TypeCredential : String := "credential"

def TypeConfig : String := "config"

/-- `inventory.Credential` (`credential.go`).  The `typeTag` field is the
Go field `Type DocumentType yaml:"type"`: the snapshot of
`credential.go` under `src/` predates it, but the repository tests
(`repository_test.go`) construct `inventory.Credential{Type: ...}` and
the spec requires every document to carry its tag, so the current struct
carries it. -/
structure Credential where
  typeTag : String
  ID : String
  Name : String
  Description : String
  User : String
  KeyPath : String
  Password : String
  Passphrase : String
deriving DecidableEq, Repr

/-- `Credential.Validate` (`credential.go`): returns the first violated
rule as an error message, or `none` when valid. -/
def Credential.Validate (c : Credential) : Option String :=
  if c.ID = "" then some "credential ID cannot be empty"
  else if c.Name = "" then some ("credential " ++ c.ID ++ ": name cannot be empty")
  else if c.User = "" then some ("credential " ++ c.ID ++ ": user cannot be empty")
  else if c.KeyPath = "" ∧ c.Password = "" then
    some ("credential " ++ c.ID ++ ": must have either key_path or password")
  else none

/-- `inventory.HostStatus` (Host source): runtime status, never saved. -/
inductive HostStatus where
  | unknown
  | online
  | offline
  | connecting
deriving DecidableEq, Repr

/-- `inventory.Host` (Host source).  `LastPingTime` abstracts the Go
`time.Time` as a number with zero value `0`; `Status` and `LastPingTime`
carry `yaml:"-"` in the source, i.e. they are not persisted. -/
structure Host where
  typeTag : String
  ID : String
  Name : String
  Description : String
  Address : String
  Port : Int
  CredentialID : String
  User : String
  KeyPath : String
  Password : String
  Tags : List String
  Vars : List (String × String)
  Status : HostStatus
  LastPingTime : Nat
deriving DecidableEq, Repr

/-- `Host.Validate` (Host source). -/
def Host.Validate (h : Host) : Option String :=
  if h.ID = "" then some "host ID cannot be empty"
  else if h.Name = "" then some ("host " ++ h.ID ++ ": name cannot be empty")
  else if h.Address = "" then some ("host " ++ h.ID ++ ": address cannot be empty")
  else if h.Port ≤ 0 ∨ h.Port > 65535 then some ("host " ++ h.ID ++ ": invalid port")
  else if h.CredentialID = "" ∧ h.User = "" then
    some ("host " ++ h.ID ++ ": must have either credential_id or user")
  else none

/-- `inventory.Group` (`group.go`).  As with `Credential`, the `typeTag`
field is the Go field `Type DocumentType yaml:"type"` used by
`repository_test.go`; the `group.go` snapshot under `src/` predates it. -/
structure Group where
  typeTag : String
  Name : String
  Description : String
  HostIDs : List String
  Vars : List (String × String)
  ChildGroupNames : List String
deriving DecidableEq, Repr

/-- `Group.Validate` (`group.go`). -/
def Group.Validate (g : Group) : Option String :=
  if g.Name = "" then some "group name cannot be empty" else none

/-- `Group.HasHost` (`group.go`): linear scan of `HostIDs`. -/
def Group.HasHost (g : Group) (hostID : String) : Bool :=
  g.HostIDs.contains hostID

/-- The slice splice in `Group.RemoveHost` (`group.go` lines 101-108):
removes the first occurrence only, then returns. -/
def removeFirst : List String → String → List String
  | [], _ => []
  | x :: xs, i => if x = i then xs else x :: removeFirst xs i

/-- `Group.RemoveHost` (`group.go`). -/
def Group.RemoveHost (g : Group) (hostID : String) : Group :=
  { g with HostIDs := removeFirst g.HostIDs hostID }

/-- `Group.HasChildGroup` (`group.go` lines 138-145). -/
def Group.HasChildGroup (g : Group) (groupName : String) : Bool :=
  g.ChildGroupNames.contains groupName

/-- `inventory.Config` (`config.go`, the `package inventory` version).
`BaseDir` and `ConfigPath` carry `yaml:"-"` (runtime only). -/
structure Config where
  typeTag : String
  DataDir : String
  Theme : String
  Language : String
  DefaultSSHPort : Int
  SSHTimeout : Int
  BaseDir : String
  ConfigPath : String
deriving DecidableEq, Repr

/-- Keys of the manager-side file store: one document per entity, named
by the entity's identity (credential id / host id / group name). -/
inductive DiskKey where
  | credFile (id : String)
  | hostFile (id : String)
  | groupFile (name : String)
deriving DecidableEq, Repr

/-- Documents held by the manager-side file store. -/
inductive DiskVal where
  | credDoc (c : Credential)
  | hostDoc (h : Host)
  | groupDoc (g : Group)
deriving DecidableEq, Repr

/-- First-match lookup keyed by `DiskKey`. -/
def lookupD (l : List (DiskKey × DiskVal)) (k : DiskKey) : Option DiskVal :=
  match l with
  | [] => none
  | p :: rest => if p.1 = k then some p.2 else lookupD rest k

/-- Overwrite / create a file in the manager-side store. -/
def insertD (l : List (DiskKey × DiskVal)) (k : DiskKey) (v : DiskVal) :
    List (DiskKey × DiskVal) :=
  match l with
  | [] => [(k, v)]
  | p :: rest => if p.1 = k then (k, v) :: rest else p :: insertD rest k v

/-- Remove a file from the manager-side store (idempotent, as
`Repository.Delete`). -/
def eraseD (l : List (DiskKey × DiskVal)) (k : DiskKey) :
    List (DiskKey × DiskVal) :=
  match l with
  | [] => []
  | p :: rest => if p.1 = k then eraseD rest k else p :: eraseD rest k

/-- `inventory.Manager` (`manager.go`): the three keyed in-memory
collections plus the file store it persists into.  The `basePath` string
only parameterizes file paths and is dropped. -/
structure Manager where
  credentials : List (String × Credential)
  hosts : List (String × Host)
  groups : List (String × Group)
  disk : List (DiskKey × DiskVal)
deriving DecidableEq, Repr

/-- The error values `manager.go` builds with `fmt.Errorf`, one
constructor per format string, carrying the identities interpolated into
the message. -/
inductive MgrErr where
  | nilEntity
  | credNotFound (id : String)
  | hostNotFound (id : String)
  | groupNotFound (name : String)
  | childGroupNotFound (name : String)
  | credInUse (id : String) (hostID : String)
  | groupInUse (name : String) (parent : String)
deriving DecidableEq, Repr

/-- Modelled from the spec: the entity persistence helpers
(`Credential.Save` etc.) are not under `src/`; per the spec they write
the entity's document through the Repository into the base directory.
IO failure is outside the scope of the claims, so the write always
succeeds. -/
def saveCredential (m : Manager) (c : Credential) : Manager :=
  { m with disk := insertD m.disk (DiskKey.credFile c.ID) (DiskVal.credDoc c) }

/-- Modelled from the spec: `Host.Save`, see `saveCredential`. -/
def saveHost (m : Manager) (h : Host) : Manager :=
  { m with disk := insertD m.disk (DiskKey.hostFile h.ID) (DiskVal.hostDoc h) }

/-- Modelled from the spec: `Group.Save`, see `saveCredential`. -/
def saveGroup (m : Manager) (g : Group) : Manager :=
  { m with disk := insertD m.disk (DiskKey.groupFile g.Name) (DiskVal.groupDoc g) }

/-- `Manager.AddCredential` (`manager.go` lines 109-125): nil check,
save, then map insert.  No `Validate` call. -/
def Manager.AddCredential (m : Manager) (c : Option Credential) :
    Manager × Option MgrErr :=
  match c with
  | none => (m, some MgrErr.nilEntity)
  | some c =>
    let m1 := saveCredential m c
    ({ m1 with credentials := insertA m1.credentials c.ID c }, none)

/-- `Manager.UpdateCredential` (`manager.go` lines 140-156): identical
body to `AddCredential`. -/
def Manager.UpdateCredential (m : Manager) (c : Option Credential) :
    Manager × Option MgrErr :=
  match c with
  | none => (m, some MgrErr.nilEntity)
  | some c =>
    let m1 := saveCredential m c
    ({ m1 with credentials := insertA m1.credentials c.ID c }, none)

/-- `Manager.RemoveCredential` (`manager.go` lines 159-181): in-use scan
over the host map first, then existence, then delete from disk and map.
The host the error names depends on Go map iteration order; the model
names the first in list order. -/
def Manager.RemoveCredential (m : Manager) (id : String) :
    Manager × Option MgrErr :=
  match m.hosts.find? (fun p => p.2.CredentialID = id) with
  | some p => (m, some (MgrErr.credInUse id p.2.ID))
  | none =>
    match lookupA m.credentials id with
    | none => (m, some (MgrErr.credNotFound id))
    | some _ =>
      ({ m with credentials := eraseA m.credentials id,
                disk := eraseD m.disk (DiskKey.credFile id) }, none)

/-- `Manager.AddHost` (`manager.go` lines 198-221): nil check, credential
reference check (skipped when `CredentialID` is empty), save, map
insert.  No `Validate` call. -/
def Manager.AddHost (m : Manager) (h : Option Host) :
    Manager × Option MgrErr :=
  match h with
  | none => (m, some MgrErr.nilEntity)
  | some h =>
    if h.CredentialID ≠ "" ∧ (lookupA m.credentials h.CredentialID).isNone then
      (m, some (MgrErr.credNotFound h.CredentialID))
    else
      let m1 := saveHost m h
      ({ m1 with hosts := insertA m1.hosts h.ID h }, none)

/-- `Manager.UpdateHost` (`manager.go` lines 236-259): identical body to
`AddHost`. -/
def Manager.UpdateHost (m : Manager) (h : Option Host) :
    Manager × Option MgrErr :=
  match h with
  | none => (m, some MgrErr.nilEntity)
  | some h =>
    if h.CredentialID ≠ "" ∧ (lookupA m.credentials h.CredentialID).isNone then
      (m, some (MgrErr.credNotFound h.CredentialID))
    else
      let m1 := saveHost m h
      ({ m1 with hosts := insertA m1.hosts h.ID h }, none)

/-- The cascade loop of `Manager.RemoveHost` (`manager.go` lines
272-277): for every group containing the host id, remove it from that
group and re-save the group.  The Go loop mutates each `*Group` in
place through the map's pointers, so the map's key structure is
untouched and every affected value is transformed; the saves accumulate
on disk in iteration order. -/
def cascadeDisk (gs : List (String × Group)) (id : String)
    (d : List (DiskKey × DiskVal)) : List (DiskKey × DiskVal) :=
  match gs with
  | [] => d
  | p :: rest =>
    cascadeDisk rest id
      (if p.2.HasHost id then
        insertD d (DiskKey.groupFile (p.2.RemoveHost id).Name)
          (DiskVal.groupDoc (p.2.RemoveHost id))
      else d)

def cascadeRemoveHost (m : Manager) (id : String) : Manager :=
  { m with
    groups := m.groups.map
      (fun p => if p.2.HasHost id then (p.1, p.2.RemoveHost id) else p),
    disk := cascadeDisk m.groups id m.disk }

/-- `Manager.RemoveHost` (`manager.go` lines 262-285). -/
def Manager.RemoveHost (m : Manager) (id : String) :
    Manager × Option MgrErr :=
  match lookupA m.hosts id with
  | none => (m, some (MgrErr.hostNotFound id))
  | some _ =>
    let m1 := cascadeRemoveHost m id
    ({ m1 with hosts := eraseA m1.hosts id,
               disk := eraseD m1.disk (DiskKey.hostFile id) }, none)

/-- `Manager.AddGroup` (`manager.go` lines 302-332): nil check, host
reference check, child-group reference check, save, map insert. -/
def Manager.AddGroup (m : Manager) (g : Option Group) :
    Manager × Option MgrErr :=
  match g with
  | none => (m, some MgrErr.nilEntity)
  | some g =>
    match g.HostIDs.find? (fun hid => (lookupA m.hosts hid).isNone) with
    | some hid => (m, some (MgrErr.hostNotFound hid))
    | none =>
      match g.ChildGroupNames.find? (fun c => (lookupA m.groups c).isNone) with
      | some c => (m, some (MgrErr.childGroupNotFound c))
      | none =>
        let m1 := saveGroup m g
        ({ m1 with groups := insertA m1.groups g.Name g }, none)

/-- `Manager.UpdateGroup` (`manager.go` lines 347-370): nil check and
host reference check only — unlike `AddGroup` it does NOT check the
child-group references — then save and map insert. -/
def Manager.UpdateGroup (m : Manager) (g : Option Group) :
    Manager × Option MgrErr :=
  match g with
  | none => (m, some MgrErr.nilEntity)
  | some g =>
    match g.HostIDs.find? (fun hid => (lookupA m.hosts hid).isNone) with
    | some hid => (m, some (MgrErr.hostNotFound hid))
    | none =>
      let m1 := saveGroup m g
      ({ m1 with groups := insertA m1.groups g.Name g }, none)

/-- `Manager.RemoveGroup` (`manager.go` lines 373-395): the in-use scan
ranges over the whole group map — including the group being removed —
then existence, then delete from disk and map. -/
def Manager.RemoveGroup (m : Manager) (name : String) :
    Manager × Option MgrErr :=
  match m.groups.find? (fun p => p.2.HasChildGroup name) with
  | some p => (m, some (MgrErr.groupInUse name p.2.Name))
  | none =>
    match lookupA m.groups name with
    | none => (m, some (MgrErr.groupNotFound name))
    | some _ =>
      ({ m with groups := eraseA m.groups name,
                disk := eraseD m.disk (DiskKey.groupFile name) }, none)

/-! ### Unfolding laws for the manager operations -/

lemma AddCredential_spec (m : Manager) (c : Credential) :
    Manager.AddCredential m (some c) =
      ({ m with credentials := insertA m.credentials c.ID c,
                disk := insertD m.disk (DiskKey.credFile c.ID)
                  (DiskVal.credDoc c) }, none) := rfl

lemma UpdateCredential_spec (m : Manager) (c : Credential) :
    Manager.UpdateCredential m (some c) =
      ({ m with credentials := insertA m.credentials c.ID c,
                disk := insertD m.disk (DiskKey.credFile c.ID)
                  (DiskVal.credDoc c) }, none) := rfl

/-- The credential-reference guard of `AddHost`, expressed positively:
the check passes iff the reference is empty or resolves. -/
def credRefOK (m : Manager) (h : Host) : Prop :=
  h.CredentialID = "" ∨ (lookupA m.credentials h.CredentialID).isSome

instance (m : Manager) (h : Host) : Decidable (credRefOK m h) := by
  unfold credRefOK
  infer_instance

lemma AddHost_spec (m : Manager) (h : Host) :
    Manager.AddHost m (some h) =
      if h.CredentialID ≠ "" ∧ (lookupA m.credentials h.CredentialID).isNone then
        (m, some (MgrErr.credNotFound h.CredentialID))
      else
        ({ m with hosts := insertA m.hosts h.ID h,
                  disk := insertD m.disk (DiskKey.hostFile h.ID)
                    (DiskVal.hostDoc h) }, none) := rfl

lemma UpdateHost_spec (m : Manager) (h : Host) :
    Manager.UpdateHost m (some h) =
      if h.CredentialID ≠ "" ∧ (lookupA m.credentials h.CredentialID).isNone then
        (m, some (MgrErr.credNotFound h.CredentialID))
      else
        ({ m with hosts := insertA m.hosts h.ID h,
                  disk := insertD m.disk (DiskKey.hostFile h.ID)
                    (DiskVal.hostDoc h) }, none) := rfl

lemma not_credRefOK_iff (m : Manager) (h : Host) :
    ¬ credRefOK m h ↔
      (h.CredentialID ≠ "" ∧ (lookupA m.credentials h.CredentialID).isNone) := by
  unfold credRefOK
  cases hl : lookupA m.credentials h.CredentialID <;> simp [hl]

lemma AddHost_ok (m : Manager) (h : Host) (hok : credRefOK m h) :
    Manager.AddHost m (some h) =
      ({ m with hosts := insertA m.hosts h.ID h,
                disk := insertD m.disk (DiskKey.hostFile h.ID)
                  (DiskVal.hostDoc h) }, none) := by
  rw [AddHost_spec, if_neg]
  rw [← not_credRefOK_iff] at *
  exact not_not_intro hok

lemma AddHost_err (m : Manager) (h : Host) (hbad : ¬ credRefOK m h) :
    Manager.AddHost m (some h) =
      (m, some (MgrErr.credNotFound h.CredentialID)) := by
  rw [AddHost_spec, if_pos ((not_credRefOK_iff m h).mp hbad)]

lemma UpdateHost_ok (m : Manager) (h : Host) (hok : credRefOK m h) :
    Manager.UpdateHost m (some h) =
      ({ m with hosts := insertA m.hosts h.ID h,
                disk := insertD m.disk (DiskKey.hostFile h.ID)
                  (DiskVal.hostDoc h) }, none) := by
  rw [UpdateHost_spec, if_neg]
  rw [← not_credRefOK_iff] at *
  exact not_not_intro hok

lemma UpdateHost_err (m : Manager) (h : Host) (hbad : ¬ credRefOK m h) :
    Manager.UpdateHost m (some h) =
      (m, some (MgrErr.credNotFound h.CredentialID)) := by
  rw [UpdateHost_spec, if_pos ((not_credRefOK_iff m h).mp hbad)]

/-- The host-reference guard of `AddGroup`/`UpdateGroup`. -/
def hostRefsOK (m : Manager) (g : Group) : Prop :=
  ∀ hid ∈ g.HostIDs, (lookupA m.hosts hid).isSome

/-- The child-group guard of `AddGroup` (absent from `UpdateGroup`). -/
def childRefsOK (m : Manager) (g : Group) : Prop :=
  ∀ c ∈ g.ChildGroupNames, (lookupA m.groups c).isSome

instance (m : Manager) (g : Group) : Decidable (hostRefsOK m g) := by
  unfold hostRefsOK
  infer_instance

instance (m : Manager) (g : Group) : Decidable (childRefsOK m g) := by
  unfold childRefsOK
  infer_instance

lemma hostRefs_find?_eq_none (m : Manager) (g : Group) :
    g.HostIDs.find? (fun hid => (lookupA m.hosts hid).isNone) = none ↔
      hostRefsOK m g := by
  rw [List.find?_eq_none]
  unfold hostRefsOK
  constructor
  · intro hall hid hm
    have := hall hid hm
    cases hl : lookupA m.hosts hid
    · exact absurd (by simp [hl]) this
    · simp
  · intro hall hid hm
    have := hall hid hm
    cases hl : lookupA m.hosts hid
    · rw [hl] at this
      exact absurd this (by simp)
    · simp [hl]

lemma childRefs_find?_eq_none (m : Manager) (g : Group) :
    g.ChildGroupNames.find? (fun c => (lookupA m.groups c).isNone) = none ↔
      childRefsOK m g := by
  rw [List.find?_eq_none]
  unfold childRefsOK
  constructor
  · intro hall c hm
    have := hall c hm
    cases hl : lookupA m.groups c
    · exact absurd (by simp [hl]) this
    · simp
  · intro hall c hm
    have := hall c hm
    cases hl : lookupA m.groups c
    · rw [hl] at this
      exact absurd this (by simp)
    · simp [hl]

lemma AddGroup_ok (m : Manager) (g : Group) (hh : hostRefsOK m g)
    (hc : childRefsOK m g) :
    Manager.AddGroup m (some g) =
      ({ m with groups := insertA m.groups g.Name g,
                disk := insertD m.disk (DiskKey.groupFile g.Name)
                  (DiskVal.groupDoc g) }, none) := by
  simp only [Manager.AddGroup]
  rw [(hostRefs_find?_eq_none m g).mpr hh, (childRefs_find?_eq_none m g).mpr hc]
  rfl

lemma UpdateGroup_ok (m : Manager) (g : Group) (hh : hostRefsOK m g) :
    Manager.UpdateGroup m (some g) =
      ({ m with groups := insertA m.groups g.Name g,
                disk := insertD m.disk (DiskKey.groupFile g.Name)
                  (DiskVal.groupDoc g) }, none) := by
  simp only [Manager.UpdateGroup]
  rw [(hostRefs_find?_eq_none m g).mpr hh]
  rfl

lemma AddGroup_state_of_err (m : Manager) (g : Option Group)
    (he : (Manager.AddGroup m g).2 ≠ none) : (Manager.AddGroup m g).1 = m := by
  match g with
  | none => rfl
  | some g =>
    simp only [Manager.AddGroup] at *
    cases hf : g.HostIDs.find? (fun hid => (lookupA m.hosts hid).isNone) with
    | some hid => simp [hf]
    | none =>
      cases hf2 : g.ChildGroupNames.find? (fun c => (lookupA m.groups c).isNone) with
      | some c => simp [hf, hf2]
      | none => rw [hf, hf2] at he; exact absurd rfl he

lemma UpdateGroup_state_of_err (m : Manager) (g : Option Group)
    (he : (Manager.UpdateGroup m g).2 ≠ none) :
    (Manager.UpdateGroup m g).1 = m := by
  match g with
  | none => rfl
  | some g =>
    simp only [Manager.UpdateGroup] at *
    cases hf : g.HostIDs.find? (fun hid => (lookupA m.hosts hid).isNone) with
    | some hid => simp [hf]
    | none => rw [hf] at he; exact absurd rfl he

lemma AddHost_ok_iff (m : Manager) (h : Host) :
    ((Manager.AddHost m (some h)).2 = none) ↔ credRefOK m h := by
  by_cases hok : credRefOK m h
  · rw [AddHost_ok m h hok]
    simp [hok]
  · rw [AddHost_err m h hok]
    simp [hok]

lemma UpdateHost_ok_iff (m : Manager) (h : Host) :
    ((Manager.UpdateHost m (some h)).2 = none) ↔ credRefOK m h := by
  by_cases hok : credRefOK m h
  · rw [UpdateHost_ok m h hok]
    simp [hok]
  · rw [UpdateHost_err m h hok]
    simp [hok]

lemma hostRefs_find?_some (m : Manager) (g : Group) (hid : String)
    (hf : g.HostIDs.find? (fun x => (lookupA m.hosts x).isNone) = some hid) :
    ¬ hostRefsOK m g := by
  intro hall
  have h1 := List.find?_some hf
  have h2 := List.mem_of_find?_eq_some hf
  have h3 := hall hid h2
  rw [Option.isNone_iff_eq_none] at h1
  rw [h1] at h3
  exact Bool.noConfusion h3

lemma childRefs_find?_some (m : Manager) (g : Group) (c : String)
    (hf : g.ChildGroupNames.find? (fun x => (lookupA m.groups x).isNone) = some c) :
    ¬ childRefsOK m g := by
  intro hall
  have h1 := List.find?_some hf
  have h2 := List.mem_of_find?_eq_some hf
  have h3 := hall c h2
  rw [Option.isNone_iff_eq_none] at h1
  rw [h1] at h3
  exact Bool.noConfusion h3

lemma AddGroup_ok_iff (m : Manager) (g : Group) :
    ((Manager.AddGroup m (some g)).2 = none) ↔
      (hostRefsOK m g ∧ childRefsOK m g) := by
  simp only [Manager.AddGroup]
  cases hf : g.HostIDs.find? (fun hid => (lookupA m.hosts hid).isNone) with
  | some hid =>
    simp only []
    constructor
    · intro hbad
      exact absurd hbad (by simp)
    · rintro ⟨hh, _⟩
      exact absurd hh (hostRefs_find?_some m g hid hf)
  | none =>
    have hh := (hostRefs_find?_eq_none m g).mp hf
    cases hf2 : g.ChildGroupNames.find? (fun c => (lookupA m.groups c).isNone) with
    | some c =>
      simp only []
      constructor
      · intro hbad
        exact absurd hbad (by simp)
      · rintro ⟨_, hc⟩
        exact absurd hc (childRefs_find?_some m g c hf2)
    | none =>
      have hc := (childRefs_find?_eq_none m g).mp hf2
      simp [hh, hc]

lemma UpdateGroup_ok_iff (m : Manager) (g : Group) :
    ((Manager.UpdateGroup m (some g)).2 = none) ↔ hostRefsOK m g := by
  simp only [Manager.UpdateGroup]
  cases hf : g.HostIDs.find? (fun hid => (lookupA m.hosts hid).isNone) with
  | some hid =>
    simp only []
    constructor
    · intro hbad
      exact absurd hbad (by simp)
    · intro hh
      exact absurd hh (hostRefs_find?_some m g hid hf)
  | none =>
    have hh := (hostRefs_find?_eq_none m g).mp hf
    simp [hh]

lemma AddHost_state_of_err (m : Manager) (h : Host)
    (he : (Manager.AddHost m (some h)).2 ≠ none) :
    (Manager.AddHost m (some h)).1 = m := by
  by_cases hok : credRefOK m h
  · rw [AddHost_ok m h hok] at he
    exact absurd rfl he
  · rw [AddHost_err m h hok]

/-! ### Concrete fixtures (the scenario of spec section 8) -/

def cred1 : Credential :=
  { typeTag := "credential", ID := "cred1", Name := "admin-key",
    Description := "", User := "admin", KeyPath := "", Password := "x",
    Passphrase := "" }

def host1 : Host :=
  { typeTag := "host", ID := "host1", Name := "server1", Description := "",
    Address := "10.0.0.1", Port := 22, CredentialID := "cred1", User := "",
    KeyPath := "", Password := "", Tags := [], Vars := [],
    Status := HostStatus.unknown, LastPingTime := 0 }

/-- Manager holding just `cred1`, as after `AddCredential(cred1)`. -/
def mgr1 : Manager :=
  { credentials := [("cred1", cred1)], hosts := [], groups := [],
    disk := [(DiskKey.credFile "cred1", DiskVal.credDoc cred1)] }

/-- Manager holding `cred1` and `host1` referencing it. -/
def mgrInUse : Manager :=
  { credentials := [("cred1", cred1)],
    hosts := [("host1", host1)], groups := [],
    disk := [(DiskKey.credFile "cred1", DiskVal.credDoc cred1),
             (DiskKey.hostFile "host1", DiskVal.hostDoc host1)] }

/-! ### C1: referential guard on `AddHost` -/

/-- C1: for every host `h` with `CredentialID` set to a nonempty `c`,
`AddHost(h)` succeeds iff a credential with id `c` exists in the
credential map; when it fails, the host map is unchanged and no file is
written. -/
theorem AddHost_referential_guard (m : Manager) (h : Host) (c : String)
    (hc : h.CredentialID = c) (hne : c ≠ "") :
    (((Manager.AddHost m (some h)).2 = none) ↔
       (lookupA m.credentials c).isSome)
    ∧ ((Manager.AddHost m (some h)).2 ≠ none →
        (Manager.AddHost m (some h)).1.hosts = m.hosts ∧
        (Manager.AddHost m (some h)).1.disk = m.disk) := by
  subst hc
  constructor
  · rw [AddHost_ok_iff]
    unfold credRefOK
    constructor
    · intro hok
      rcases hok with h0 | h0
      · exact absurd h0 hne
      · exact h0
    · intro hs
      exact Or.inr hs
  · intro he
    rw [AddHost_state_of_err m h he]
    exact ⟨rfl, rfl⟩

theorem AddHost_referential_guard_witness :
    (host1.CredentialID = "cred1" ∧ "cred1" ≠ ("" : String)) ∧
    ((((Manager.AddHost mgr1 (some host1)).2 = none) ↔
        (lookupA mgr1.credentials "cred1").isSome)
     ∧ ((Manager.AddHost mgr1 (some host1)).2 ≠ none →
         (Manager.AddHost mgr1 (some host1)).1.hosts = mgr1.hosts ∧
         (Manager.AddHost mgr1 (some host1)).1.disk = mgr1.disk)) :=
  ⟨⟨rfl, by decide⟩,
   AddHost_referential_guard mgr1 host1 "cred1" rfl (by decide)⟩

/-! ### C3: in-use guard on `RemoveCredential` -/

/-- C3: `RemoveCredential(id)` fails with the in-use
(referential-integrity) error iff some host in the host map has
`CredentialID = id`, and on that failure the whole state — credential
map and file store included — is unchanged. -/
theorem RemoveCredential_inUse_guard (m : Manager) (id : String) :
    ((∃ hid, (Manager.RemoveCredential m id).2 =
        some (MgrErr.credInUse id hid)) ↔
       ∃ p ∈ m.hosts, p.2.CredentialID = id)
    ∧ (∀ hid, (Manager.RemoveCredential m id).2 =
        some (MgrErr.credInUse id hid) →
        (Manager.RemoveCredential m id).1 = m) := by
  simp only [Manager.RemoveCredential]
  cases hf : m.hosts.find? (fun p => p.2.CredentialID = id) with
  | some q =>
    simp only [hf]
    have h1 := List.find?_some hf
    simp only [decide_eq_true_eq] at h1
    constructor
    · constructor
      · intro _
        exact ⟨q, List.mem_of_find?_eq_some hf, h1⟩
      · intro _
        exact ⟨q.2.ID, rfl⟩
    · intro hid _
      trivial
  | none =>
    have hnone : ∀ p ∈ m.hosts, ¬ p.2.CredentialID = id := by
      intro p hp
      have := List.find?_eq_none.mp hf p hp
      simpa using this
    constructor
    · constructor
      · rintro ⟨hid, hbad⟩
        cases hl : lookupA m.credentials id <;> rw [hl] at hbad <;>
          simp at hbad
      · rintro ⟨p, hp, hcid⟩
        exact absurd hcid (hnone p hp)
    · intro hid hbad
      cases hl : lookupA m.credentials id <;> rw [hl] at hbad <;>
        simp at hbad

theorem RemoveCredential_inUse_guard_witness :
    ((∃ hid, (Manager.RemoveCredential mgrInUse "cred1").2 =
        some (MgrErr.credInUse "cred1" hid)) ↔
       ∃ p ∈ mgrInUse.hosts, p.2.CredentialID = "cred1")
    ∧ (∀ hid, (Manager.RemoveCredential mgrInUse "cred1").2 =
        some (MgrErr.credInUse "cred1" hid) →
        (Manager.RemoveCredential mgrInUse "cred1").1 = mgrInUse) :=
  RemoveCredential_inUse_guard mgrInUse "cred1"

/-! ### C10: the Add/Update operations never consult `Validate` -/

/-- A credential that violates every rule of `Credential.Validate`
(empty id, name, user and no key path or password). -/
def badCred : Credential :=
  { typeTag := "credential", ID := "", Name := "", Description := "",
    User := "", KeyPath := "", Password := "", Passphrase := "" }

/-- C10: the success of every Add/Update operation is characterized
without any reference to the entity-level `Validate` rules:
`AddCredential`/`UpdateCredential` always succeed on a non-nil argument
and store under key `c.ID` (possibly the empty string);
`AddHost`/`UpdateHost` succeed exactly when the credential reference
resolves; `AddGroup` succeeds exactly when host and child-group
references resolve; `UpdateGroup` exactly when host references resolve.
In particular an entity rejected by its own `Validate` is persisted and
inserted all the same. -/
theorem addUpdate_never_validate :
    (∀ (m : Manager) (c : Credential),
        Manager.AddCredential m (some c) =
          ({ m with credentials := insertA m.credentials c.ID c,
                    disk := insertD m.disk (DiskKey.credFile c.ID)
                      (DiskVal.credDoc c) }, none))
    ∧ (∀ (m : Manager) (c : Credential),
        Manager.UpdateCredential m (some c) =
          ({ m with credentials := insertA m.credentials c.ID c,
                    disk := insertD m.disk (DiskKey.credFile c.ID)
                      (DiskVal.credDoc c) }, none))
    ∧ (∀ (m : Manager) (h : Host),
        ((Manager.AddHost m (some h)).2 = none) ↔ credRefOK m h)
    ∧ (∀ (m : Manager) (h : Host),
        ((Manager.UpdateHost m (some h)).2 = none) ↔ credRefOK m h)
    ∧ (∀ (m : Manager) (g : Group),
        ((Manager.AddGroup m (some g)).2 = none) ↔
          (hostRefsOK m g ∧ childRefsOK m g))
    ∧ (∀ (m : Manager) (g : Group),
        ((Manager.UpdateGroup m (some g)).2 = none) ↔ hostRefsOK m g) :=
  ⟨fun m c => AddCredential_spec m c,
   fun m c => UpdateCredential_spec m c,
   fun m h => AddHost_ok_iff m h,
   fun m h => UpdateHost_ok_iff m h,
   fun m g => AddGroup_ok_iff m g,
   fun m g => UpdateGroup_ok_iff m g⟩

theorem addUpdate_never_validate_witness :
    Credential.Validate badCred ≠ none ∧
    Manager.AddCredential mgr1 (some badCred) =
      ({ mgr1 with credentials := insertA mgr1.credentials "" badCred,
                   disk := insertD mgr1.disk (DiskKey.credFile "")
                     (DiskVal.credDoc badCred) }, none) :=
  ⟨by decide, addUpdate_never_validate.1 mgr1 badCred⟩

/-! ### C2: reference checks before persistence; the `UpdateGroup` gap -/

def groupP : Group :=
  { typeTag := "group", Name := "p", Description := "", HostIDs := [],
    Vars := [], ChildGroupNames := [] }

/-- Manager holding just the group `p`. -/
def mgrGroupP : Manager :=
  { credentials := [], hosts := [], groups := [("p", groupP)],
    disk := [(DiskKey.groupFile "p", DiskVal.groupDoc groupP)] }

/-- The group `p` rewritten to cite a child group that does not exist. -/
def groupPGhost : Group :=
  { groupP with ChildGroupNames := ["ghost"] }

/-- C2 counterexample: `UpdateGroup` accepts — and persists — a group
citing a nonexistent child group, contradicting the claim that every
Update checks the group→childGroup reference before persisting. -/
theorem UpdateGroup_accepts_missing_child :
    lookupA mgrGroupP.groups "ghost" = none ∧
    (Manager.UpdateGroup mgrGroupP (some groupPGhost)).2 = none ∧
    lookupA (Manager.UpdateGroup mgrGroupP (some groupPGhost)).1.groups "p" =
      some groupPGhost ∧
    lookupD (Manager.UpdateGroup mgrGroupP (some groupPGhost)).1.disk
      (DiskKey.groupFile "p") = some (DiskVal.groupDoc groupPGhost) := by
  decide

/-- C2 amended: every Add/Update operation rejects a nil argument,
checks its cross-entity references before persisting — host→credential
for `AddHost`/`UpdateHost`, group→host and group→childGroup for
`AddGroup`, but only group→host for `UpdateGroup` — leaves the state
untouched on a failed check, and on a passed check persists and updates
the in-memory map together; `UpdateGroup` does not check child-group
references, so a group citing a nonexistent child group is accepted and
persisted. -/
theorem addUpdate_guard_before_persist :
    (∀ (m : Manager) (h : Host),
        Manager.AddHost m (some h) =
          if credRefOK m h then
            ({ m with hosts := insertA m.hosts h.ID h,
                      disk := insertD m.disk (DiskKey.hostFile h.ID)
                        (DiskVal.hostDoc h) }, none)
          else (m, some (MgrErr.credNotFound h.CredentialID)))
    ∧ (∀ (m : Manager) (h : Host),
        Manager.UpdateHost m (some h) =
          if credRefOK m h then
            ({ m with hosts := insertA m.hosts h.ID h,
                      disk := insertD m.disk (DiskKey.hostFile h.ID)
                        (DiskVal.hostDoc h) }, none)
          else (m, some (MgrErr.credNotFound h.CredentialID)))
    ∧ (∀ (m : Manager) (g : Group),
        (((Manager.AddGroup m (some g)).2 = none) ↔
          (hostRefsOK m g ∧ childRefsOK m g))
        ∧ ((Manager.AddGroup m (some g)).2 ≠ none →
            (Manager.AddGroup m (some g)).1 = m)
        ∧ (hostRefsOK m g → childRefsOK m g →
            Manager.AddGroup m (some g) =
              ({ m with groups := insertA m.groups g.Name g,
                        disk := insertD m.disk (DiskKey.groupFile g.Name)
                          (DiskVal.groupDoc g) }, none)))
    ∧ (∀ (m : Manager) (g : Group),
        (((Manager.UpdateGroup m (some g)).2 = none) ↔ hostRefsOK m g)
        ∧ ((Manager.UpdateGroup m (some g)).2 ≠ none →
            (Manager.UpdateGroup m (some g)).1 = m)
        ∧ (hostRefsOK m g →
            Manager.UpdateGroup m (some g) =
              ({ m with groups := insertA m.groups g.Name g,
                        disk := insertD m.disk (DiskKey.groupFile g.Name)
                          (DiskVal.groupDoc g) }, none)))
    ∧ (∀ m : Manager, Manager.AddHost m none = (m, some MgrErr.nilEntity))
    ∧ (∀ m : Manager, Manager.UpdateGroup m none =
        (m, some MgrErr.nilEntity)) := by
  refine ⟨?_, ?_, ?_, ?_, fun m => rfl, fun m => rfl⟩
  · intro m h
    by_cases hok : credRefOK m h
    · rw [if_pos hok]
      exact AddHost_ok m h hok
    · rw [if_neg hok]
      exact AddHost_err m h hok
  · intro m h
    by_cases hok : credRefOK m h
    · rw [if_pos hok]
      exact UpdateHost_ok m h hok
    · rw [if_neg hok]
      exact UpdateHost_err m h hok
  · intro m g
    exact ⟨AddGroup_ok_iff m g, AddGroup_state_of_err m (some g),
      fun hh hc => AddGroup_ok m g hh hc⟩
  · intro m g
    exact ⟨UpdateGroup_ok_iff m g, UpdateGroup_state_of_err m (some g),
      fun hh => UpdateGroup_ok m g hh⟩

theorem addUpdate_guard_before_persist_witness :
    hostRefsOK mgrGroupP groupPGhost ∧
    ¬ childRefsOK mgrGroupP groupPGhost ∧
    Manager.UpdateGroup mgrGroupP (some groupPGhost) =
      ({ mgrGroupP with
          groups := insertA mgrGroupP.groups "p" groupPGhost,
          disk := insertD mgrGroupP.disk (DiskKey.groupFile "p")
            (DiskVal.groupDoc groupPGhost) }, none) :=
  ⟨by decide, by decide,
   (addUpdate_guard_before_persist.2.2.2.1 mgrGroupP groupPGhost).2.2
     (by decide)⟩

/-! ### C5: the child-group guard on `RemoveGroup` includes the group
itself -/

/-- A group listing itself as a child (reachable through `UpdateGroup`,
which checks no child references, or through `AddGroup` over an
existing name). -/
def groupSelf : Group :=
  { typeTag := "group", Name := "a", Description := "", HostIDs := [],
    Vars := [], ChildGroupNames := ["a"] }

def mgrSelf : Manager :=
  { credentials := [], hosts := [], groups := [("a", groupSelf)],
    disk := [(DiskKey.groupFile "a", DiskVal.groupDoc groupSelf)] }

/-- C5 counterexample: the in-use scan of `RemoveGroup` ranges over the
whole group map, so a group listing itself as a child refuses its own
removal even though no other group lists it — `mgrSelf` holds exactly
the one group `a`. -/
theorem RemoveGroup_blocked_by_self :
    mgrSelf.groups = [("a", groupSelf)] ∧
    groupSelf.HasChildGroup "a" = true ∧
    (Manager.RemoveGroup mgrSelf "a").2 =
      some (MgrErr.groupInUse "a" "a") ∧
    (Manager.RemoveGroup mgrSelf "a").1 = mgrSelf := by
  decide

/-- C5 amended: for a group `name` present in the manager,
`RemoveGroup(name)` fails as in-use iff ANY group — the group itself
included — lists `name` as a child; on that failure the state is
unchanged, and otherwise the group is deleted from both the map and the
file store. -/
theorem RemoveGroup_child_guard (m : Manager) (name : String) (g : Group)
    (hg : lookupA m.groups name = some g) :
    ((∃ parent, (Manager.RemoveGroup m name).2 =
        some (MgrErr.groupInUse name parent)) ↔
       ∃ q ∈ m.groups, q.2.HasChildGroup name = true)
    ∧ (((Manager.RemoveGroup m name).2 = none) ↔
       ¬ ∃ q ∈ m.groups, q.2.HasChildGroup name = true)
    ∧ (∀ parent, (Manager.RemoveGroup m name).2 =
        some (MgrErr.groupInUse name parent) →
        (Manager.RemoveGroup m name).1 = m)
    ∧ ((Manager.RemoveGroup m name).2 = none →
        Manager.RemoveGroup m name =
          ({ m with groups := eraseA m.groups name,
                    disk := eraseD m.disk (DiskKey.groupFile name) }, none)) := by
  simp only [Manager.RemoveGroup]
  cases hf : m.groups.find? (fun p => p.2.HasChildGroup name) with
  | some q =>
    simp only [hf]
    have h1 : q.2.HasChildGroup name = true := by
      have := List.find?_some hf
      simpa using this
    refine ⟨?_, ?_, ?_, ?_⟩
    · constructor
      · intro _
        exact ⟨q, List.mem_of_find?_eq_some hf, h1⟩
      · intro _
        exact ⟨q.2.Name, rfl⟩
    · constructor
      · intro hbad
        exact absurd hbad (by simp)
      · intro hno
        exact absurd ⟨q, List.mem_of_find?_eq_some hf, h1⟩ hno
    · intro parent _
      trivial
    · intro hbad
      exact absurd hbad (by simp)
  | none =>
    have hnone : ¬ ∃ q ∈ m.groups, q.2.HasChildGroup name = true := by
      rintro ⟨q, hq, hc⟩
      have := List.find?_eq_none.mp hf q hq
      exact this hc
    rw [hg]
    simp only []
    refine ⟨?_, ?_, ?_, ?_⟩
    · constructor
      · rintro ⟨parent, hbad⟩
        exact absurd hbad (by simp)
      · intro hx
        exact absurd hx hnone
    · constructor
      · intro _
        exact hnone
      · intro _
        trivial
    · intro parent hbad
      exact absurd hbad (by simp)
    · intro _
      trivial

/-- An isolated group, removable. -/
def groupSolo : Group :=
  { typeTag := "group", Name := "solo", Description := "", HostIDs := [],
    Vars := [], ChildGroupNames := [] }

def mgrSolo : Manager :=
  { credentials := [], hosts := [], groups := [("solo", groupSolo)],
    disk := [(DiskKey.groupFile "solo", DiskVal.groupDoc groupSolo)] }

theorem RemoveGroup_child_guard_witness :
    lookupA mgrSolo.groups "solo" = some groupSolo ∧
    (((Manager.RemoveGroup mgrSolo "solo").2 = none) ↔
       ¬ ∃ q ∈ mgrSolo.groups, q.2.HasChildGroup "solo" = true) :=
  ⟨by decide,
   (RemoveGroup_child_guard mgrSolo "solo" groupSolo (by decide)).2.1⟩

/-! ### C4: cascade on host removal -/

lemma lookupA_eraseA_self {α : Type} (l : List (String × α)) (k : String) :
    lookupA (eraseA l k) k = none := by
  induction l with
  | nil => rfl
  | cons p rest ih =>
    by_cases hk : p.1 = k
    · simpa [eraseA, hk] using ih
    · simpa [eraseA, lookupA, hk] using ih

lemma lookupD_insertD_self (l : List (DiskKey × DiskVal)) (k : DiskKey)
    (v : DiskVal) : lookupD (insertD l k v) k = some v := by
  induction l with
  | nil => simp [insertD, lookupD]
  | cons p rest ih =>
    by_cases hk : p.1 = k
    · simp [insertD, lookupD, hk]
    · simp [insertD, lookupD, hk, ih]

lemma lookupD_insertD_ne (l : List (DiskKey × DiskVal)) (k k2 : DiskKey)
    (v : DiskVal) (hne : k2 ≠ k) :
    lookupD (insertD l k v) k2 = lookupD l k2 := by
  have hne2 : ¬ k = k2 := fun h => hne h.symm
  induction l with
  | nil => simp [insertD, lookupD, hne2]
  | cons p rest ih =>
    by_cases hk : p.1 = k
    · subst hk
      simp [insertD, lookupD, hne2]
    · simp only [insertD, if_neg hk, lookupD]
      by_cases hk2 : p.1 = k2
      · simp [hk2]
      · simp [hk2, ih]

lemma lookupD_eraseD_self (l : List (DiskKey × DiskVal)) (k : DiskKey) :
    lookupD (eraseD l k) k = none := by
  induction l with
  | nil => rfl
  | cons p rest ih =>
    by_cases hk : p.1 = k
    · simpa [eraseD, hk] using ih
    · simpa [eraseD, lookupD, hk] using ih

lemma lookupD_eraseD_ne (l : List (DiskKey × DiskVal)) (k k2 : DiskKey)
    (hne : k2 ≠ k) : lookupD (eraseD l k) k2 = lookupD l k2 := by
  induction l with
  | nil => rfl
  | cons p rest ih =>
    by_cases hk : p.1 = k
    · have hkk2 : ¬ k = k2 := fun h => hne h.symm
      simp [eraseD, lookupD, hk, hkk2, ih]
    · simp only [eraseD, if_neg hk, lookupD]
      by_cases hk2 : p.1 = k2
      · simp [hk2]
      · simp [hk2, ih]

@[simp] lemma Group.RemoveHost_Name (g : Group) (id : String) :
    (g.RemoveHost id).Name = g.Name := rfl

lemma lookupA_cascade_map (gs : List (String × Group)) (id k : String) :
    lookupA (gs.map
      (fun p => if p.2.HasHost id then (p.1, p.2.RemoveHost id) else p)) k =
      (lookupA gs k).map
        (fun g => if g.HasHost id then g.RemoveHost id else g) := by
  induction gs with
  | nil => rfl
  | cons p rest ih =>
    by_cases hc : p.2.HasHost id <;> by_cases hk : p.1 = k <;>
      simp [lookupA, hc, hk, ih]

lemma cascadeDisk_other (gs : List (String × Group)) (id : String)
    (d : List (DiskKey × DiskVal)) (k : DiskKey)
    (hk : ∀ p ∈ gs, p.2.HasHost id = true → DiskKey.groupFile p.2.Name ≠ k) :
    lookupD (cascadeDisk gs id d) k = lookupD d k := by
  induction gs generalizing d with
  | nil => rfl
  | cons p rest ih =>
    have hrest : ∀ q ∈ rest, q.2.HasHost id = true →
        DiskKey.groupFile q.2.Name ≠ k :=
      fun q hq hcq => hk q (List.mem_cons_of_mem p hq) hcq
    simp only [cascadeDisk]
    by_cases hc : p.2.HasHost id
    · rw [if_pos hc]
      rw [ih _ hrest]
      have hne : k ≠ DiskKey.groupFile (p.2.RemoveHost id).Name := by
        intro hcontra
        exact hk p (List.mem_cons_self p rest) hc
          (by rw [Group.RemoveHost_Name] at hcontra; exact hcontra.symm)
      exact lookupD_insertD_ne d _ k _ hne
    · rw [if_neg hc]
      exact ih d hrest

lemma cascadeDisk_write (gs : List (String × Group)) (id : String)
    (d : List (DiskKey × DiskVal))
    (hnd : (gs.map (fun p => p.2.Name)).Nodup)
    (p : String × Group) (hp : p ∈ gs) (hc : p.2.HasHost id = true) :
    lookupD (cascadeDisk gs id d) (DiskKey.groupFile p.2.Name) =
      some (DiskVal.groupDoc (p.2.RemoveHost id)) := by
  induction gs generalizing d with
  | nil => exact absurd hp (List.not_mem_nil p)
  | cons q rest ih =>
    simp only [List.map_cons, List.nodup_cons] at hnd
    rcases List.mem_cons.mp hp with hpq | hpr
    · subst hpq
      simp only [cascadeDisk, if_pos hc]
      have hother : ∀ r ∈ rest, r.2.HasHost id = true →
          DiskKey.groupFile r.2.Name ≠ DiskKey.groupFile p.2.Name := by
        intro r hr _ hcontra
        apply hnd.1
        have heq : r.2.Name = p.2.Name := by
          injection hcontra
        rw [← heq]
        exact List.mem_map.mpr ⟨r, hr, rfl⟩
      rw [cascadeDisk_other rest id _ _ hother]
      rw [Group.RemoveHost_Name]
      exact lookupD_insertD_self d _ _
    · simp only [cascadeDisk]
      by_cases hcq : q.2.HasHost id
      · rw [if_pos hcq]
        exact ih _ hnd.2 hpr
      · rw [if_neg hcq]
        exact ih _ hnd.2 hpr

lemma removeFirst_no_more (l : List String) (i : String) (hnd : l.Nodup) :
    (removeFirst l i).contains i = false := by
  induction l with
  | nil => rfl
  | cons x xs ih =>
    simp only [List.nodup_cons] at hnd
    by_cases hx : x = i
    · subst hx
      simp only [removeFirst, if_pos rfl]
      rw [List.contains_eq_any_beq]
      rw [List.any_eq_false]
      intro a ha
      simp only [beq_iff_eq]
      intro hax
      exact hnd.1 (hax ▸ ha)
    · have hix : (i == x) = false := by
        simp only [beq_eq_false_iff_ne, ne_eq]
        exact fun hcontra => hx hcontra.symm
      simp only [removeFirst, if_neg hx]
      rw [List.contains_cons, hix, ih hnd.2]
      rfl

/-- If a group's membership list has no duplicates, it no longer
contains the removed host id after the cascade transform. -/
lemma cascaded_group_free (g : Group) (id : String)
    (hnd : g.HostIDs.Nodup) :
    ((if g.HasHost id then g.RemoveHost id else g).HasHost id) = false := by
  by_cases hc : g.HasHost id
  · rw [if_pos hc]
    unfold Group.HasHost Group.RemoveHost at *
    exact removeFirst_no_more g.HostIDs id hnd
  · rw [if_neg hc]
    simpa using hc

/-- A host and group fixture where the membership list holds `host1`
twice; reachable since `AddGroup` checks reference existence but not
duplication. -/
def groupDup : Group :=
  { typeTag := "group", Name := "g", Description := "",
    HostIDs := ["host1", "host1"], Vars := [], ChildGroupNames := [] }

def mgrDup : Manager :=
  { credentials := [("cred1", cred1)],
    hosts := [("host1", host1)],
    groups := [("g", groupDup)],
    disk := [(DiskKey.credFile "cred1", DiskVal.credDoc cred1),
             (DiskKey.hostFile "host1", DiskVal.hostDoc host1),
             (DiskKey.groupFile "g", DiskVal.groupDoc groupDup)] }

/-- C4 counterexample: `Group.RemoveHost` splices out only the first
occurrence, so after a successful `RemoveHost("host1")` the group `g` —
whose membership list held `host1` twice — still contains `host1`,
contradicting the claim that no group's membership list contains the
removed id. -/
theorem RemoveHost_leaves_duplicate_membership :
    groupDup.HostIDs = ["host1", "host1"] ∧
    (Manager.RemoveHost mgrDup "host1").2 = none ∧
    lookupA (Manager.RemoveHost mgrDup "host1").1.hosts "host1" = none ∧
    lookupA (Manager.RemoveHost mgrDup "host1").1.groups "g" =
      some { groupDup with HostIDs := ["host1"] } ∧
    ({ groupDup with HostIDs := ["host1"] } : Group).HasHost "host1" =
      true := by
  decide

/-- C4 amended: for a host id present in a well-formed manager (group
binding keys are the group names and are duplicate-free),
`RemoveHost(id)` succeeds; the host is absent from the host map and the
file store; every group loses the FIRST occurrence of `id` from its
membership list and every affected group is re-persisted; consequently
a group whose membership list had no duplicate entries no longer
contains `id`. -/
theorem RemoveHost_cascade (m : Manager) (id : String) (h : Host)
    (hh : lookupA m.hosts id = some h)
    (hnames : ∀ p ∈ m.groups, p.2.Name = p.1)
    (hnd : (m.groups.map Prod.fst).Nodup) :
    ((Manager.RemoveHost m id).2 = none)
    ∧ lookupA (Manager.RemoveHost m id).1.hosts id = none
    ∧ lookupD (Manager.RemoveHost m id).1.disk (DiskKey.hostFile id) = none
    ∧ (∀ name g, lookupA m.groups name = some g →
        lookupA (Manager.RemoveHost m id).1.groups name =
          some (if g.HasHost id then g.RemoveHost id else g))
    ∧ (∀ p ∈ m.groups, p.2.HasHost id = true →
        lookupD (Manager.RemoveHost m id).1.disk
          (DiskKey.groupFile p.2.Name) =
          some (DiskVal.groupDoc (p.2.RemoveHost id)))
    ∧ (∀ g : Group, g.HostIDs.Nodup →
        ((if g.HasHost id then g.RemoveHost id else g).HasHost id) = false) := by
  have hnames2 : (m.groups.map (fun p => p.2.Name)).Nodup := by
    have : m.groups.map (fun p => p.2.Name) = m.groups.map Prod.fst := by
      apply List.map_congr_left
      intro p hp
      exact hnames p hp
    rw [this]
    exact hnd
  simp only [Manager.RemoveHost, hh]
  refine ⟨trivial, ?_, ?_, ?_, ?_, ?_⟩
  · exact lookupA_eraseA_self _ id
  · exact lookupD_eraseD_self _ _
  · intro name g hg
    simp only [cascadeRemoveHost]
    rw [lookupA_cascade_map m.groups id name, hg]
    rfl
  · intro p hp hc
    simp only [cascadeRemoveHost]
    rw [lookupD_eraseD_ne _ _ _ (by simp)]
    exact cascadeDisk_write m.groups id m.disk hnames2 p hp hc
  · intro g hgnd
    exact cascaded_group_free g id hgnd

/-- Group holding `host1` exactly once, for the cascade witness. -/
def groupG1 : Group :=
  { typeTag := "group", Name := "g1", Description := "",
    HostIDs := ["host1"], Vars := [], ChildGroupNames := [] }

def mgrCascade : Manager :=
  { credentials := [("cred1", cred1)],
    hosts := [("host1", host1)],
    groups := [("g1", groupG1)],
    disk := [(DiskKey.credFile "cred1", DiskVal.credDoc cred1),
             (DiskKey.hostFile "host1", DiskVal.hostDoc host1),
             (DiskKey.groupFile "g1", DiskVal.groupDoc groupG1)] }

theorem RemoveHost_cascade_witness :
    lookupA mgrCascade.hosts "host1" = some host1 ∧
    (Manager.RemoveHost mgrCascade "host1").2 = none ∧
    lookupA (Manager.RemoveHost mgrCascade "host1").1.hosts "host1" = none ∧
    lookupD (Manager.RemoveHost mgrCascade "host1").1.disk
      (DiskKey.hostFile "host1") = none := by
  have hmain := RemoveHost_cascade mgrCascade "host1" host1 (by decide)
    (by decide) (by decide)
  exact ⟨by decide, hmain.1, hmain.2.1, hmain.2.2.1⟩

/-! ### The document repository (`internal/storage/repository.go`)

A stored file is either an unparsable byte blob (`malformed`) or a
parsed YAML mapping.  The mappings this program ever reads or writes
hold only string scalars, integer scalars, string lists and
string-to-string maps, so `Value` covers exactly those shapes; the
textual YAML layer (quoting, indentation) is abstracted away, a
document is its parsed node tree. -/

inductive Value where
  | str (s : String)
  | int (n : Int)
  | strList (ss : List String)
  | strMap (kvs : List (String × String))
deriving DecidableEq, Repr

inductive FileData where
  | malformed
  | parsed (d : List (String × Value))
deriving DecidableEq, Repr

/-- The base directory: filename → stored file. -/
def Store : Type := List (String × FileData)

/-- One field of `yaml.Marshal` output for an `omitempty` string field:
omitted when the value is the zero string. -/
def optStr (k s : String) : List (String × Value) :=
  if s = "" then [] else [(k, Value.str s)]

/-- `omitempty` list field: omitted when empty. -/
def optList (k : String) (l : List String) : List (String × Value) :=
  if l = [] then [] else [(k, Value.strList l)]

/-- `omitempty` map field: omitted when empty. -/
def optMap (k : String) (kvs : List (String × String)) :
    List (String × Value) :=
  if kvs = [] then [] else [(k, Value.strMap kvs)]

/-- `yaml.Marshal` of a `Host` per its struct tags; `Status` and
`LastPingTime` carry `yaml:"-"` and are never emitted. -/
def encodeHost (h : Host) : List (String × Value) :=
  [("type", Value.str h.typeTag), ("id", Value.str h.ID),
   ("name", Value.str h.Name)]
  ++ optStr "description" h.Description
  ++ [("address", Value.str h.Address), ("port", Value.int h.Port)]
  ++ optStr "credential_id" h.CredentialID
  ++ optStr "user" h.User
  ++ optStr "key_path" h.KeyPath
  ++ optStr "password" h.Password
  ++ optList "tags" h.Tags
  ++ optMap "vars" h.Vars

/-- `yaml.Marshal` of a `Credential` per its struct tags. -/
def encodeCredential (c : Credential) : List (String × Value) :=
  [("type", Value.str c.typeTag), ("id", Value.str c.ID),
   ("name", Value.str c.Name)]
  ++ optStr "description" c.Description
  ++ [("user", Value.str c.User)]
  ++ optStr "key_path" c.KeyPath
  ++ optStr "password" c.Password
  ++ optStr "passphrase" c.Passphrase

/-- `yaml.Marshal` of a `Group` per its struct tags (`host_ids` carries
no `omitempty` and is always emitted). -/
def encodeGroup (g : Group) : List (String × Value) :=
  [("type", Value.str g.typeTag), ("name", Value.str g.Name)]
  ++ optStr "description" g.Description
  ++ [("host_ids", Value.strList g.HostIDs)]
  ++ optMap "vars" g.Vars
  ++ optList "child_groups" g.ChildGroupNames

/-- `yaml.Marshal` of a `Config`; `BaseDir`/`ConfigPath` carry
`yaml:"-"`. -/
def encodeConfig (c : Config) : List (String × Value) :=
  [("type", Value.str c.typeTag), ("data_dir", Value.str c.DataDir),
   ("theme", Value.str c.Theme), ("language", Value.str c.Language),
   ("default_ssh_port", Value.int c.DefaultSSHPort),
   ("ssh_timeout", Value.int c.SSHTimeout)]

/-- `yaml.Unmarshal` of one string field: a missing key leaves the Go
zero value, a non-string node is a decode error. -/
def getStr (d : List (String × Value)) (k : String) : Option String :=
  match lookupA d k with
  | none => some ""
  | some (Value.str s) => some s
  | some _ => none

def getInt (d : List (String × Value)) (k : String) : Option Int :=
  match lookupA d k with
  | none => some 0
  | some (Value.int n) => some n
  | some _ => none

def getStrList (d : List (String × Value)) (k : String) :
    Option (List String) :=
  match lookupA d k with
  | none => some []
  | some (Value.strList l) => some l
  | some _ => none

def getStrMap (d : List (String × Value)) (k : String) :
    Option (List (String × String)) :=
  match lookupA d k with
  | none => some []
  | some (Value.strMap kv) => some kv
  | some _ => none

/-- `yaml.Unmarshal(data, &Host{})`: field-wise decode into a zero
struct; the `yaml:"-"` fields keep their zero values. -/
def decodeHost (d : List (String × Value)) : Option Host := do
  let t ← getStr d "type"
  let id ← getStr d "id"
  let nm ← getStr d "name"
  let de ← getStr d "description"
  let ad ← getStr d "address"
  let po ← getInt d "port"
  let cr ← getStr d "credential_id"
  let us ← getStr d "user"
  let kp ← getStr d "key_path"
  let pw ← getStr d "password"
  let tg ← getStrList d "tags"
  let vr ← getStrMap d "vars"
  pure { typeTag := t, ID := id, Name := nm, Description := de,
         Address := ad, Port := po, CredentialID := cr, User := us,
         KeyPath := kp, Password := pw, Tags := tg, Vars := vr,
         Status := HostStatus.unknown, LastPingTime := 0 }

def decodeCredential (d : List (String × Value)) : Option Credential := do
  let t ← getStr d "type"
  let id ← getStr d "id"
  let nm ← getStr d "name"
  let de ← getStr d "description"
  let us ← getStr d "user"
  let kp ← getStr d "key_path"
  let pw ← getStr d "password"
  let pp ← getStr d "passphrase"
  pure { typeTag := t, ID := id, Name := nm, Description := de,
         User := us, KeyPath := kp, Password := pw, Passphrase := pp }

def decodeGroup (d : List (String × Value)) : Option Group := do
  let t ← getStr d "type"
  let nm ← getStr d "name"
  let de ← getStr d "description"
  let hs ← getStrList d "host_ids"
  let vr ← getStrMap d "vars"
  let cg ← getStrList d "child_groups"
  pure { typeTag := t, Name := nm, Description := de, HostIDs := hs,
         Vars := vr, ChildGroupNames := cg }

def decodeConfig (d : List (String × Value)) : Option Config := do
  let t ← getStr d "type"
  let dd ← getStr d "data_dir"
  let th ← getStr d "theme"
  let la ← getStr d "language"
  let dp ← getInt d "default_ssh_port"
  let st ← getInt d "ssh_timeout"
  pure { typeTag := t, DataDir := dd, Theme := th, Language := la,
         DefaultSSHPort := dp, SSHTimeout := st, BaseDir := "",
         ConfigPath := "" }

/-- The values `Repository.Write` is called with (see
`repository_test.go`): pointers to the four entity structs. -/
inductive Entity where
  | host (h : Host)
  | group (g : Group)
  | credential (c : Credential)
  | config (c : Config)
deriving DecidableEq, Repr

def encodeEntity : Entity → List (String × Value)
  | Entity.host h => encodeHost h
  | Entity.group g => encodeGroup g
  | Entity.credential c => encodeCredential c
  | Entity.config c => encodeConfig c

/-- `Repository.Write` (`repository.go` lines 75-90): marshal (which
cannot fail on these structs) and overwrite the target file. -/
def Write (r : Store) (filename : String) (e : Entity) : Store :=
  insertA r filename (FileData.parsed (encodeEntity e))

/-- The error classes of `Repository.Read`, one per `return` site. -/
inductive ReadErr where
  | notFound (f : String)
  | extractFailed
  | unknownType (tag : String)
  | decodeFailed
deriving DecidableEq, Repr

/-- Step 1 of `Read`: unmarshal only the `type` field.  A missing key
leaves the zero value `""`; a non-scalar node under `type` is an
unmarshal error. -/
def extractTag (d : List (String × Value)) : Option String :=
  match lookupA d "type" with
  | none => some ""
  | some (Value.str s) => some s
  | some _ => none

/-- `Repository.Read` (`repository.go` lines 93-135): not-found check,
tag extraction, dispatch on the tag to the concrete struct, full
decode. -/
def Read (r : Store) (filename : String) : Except ReadErr (String × Entity) :=
  match lookupA r filename with
  | none => Except.error (ReadErr.notFound filename)
  | some FileData.malformed => Except.error ReadErr.extractFailed
  | some (FileData.parsed d) =>
    match extractTag d with
    | none => Except.error ReadErr.extractFailed
    | some tag =>
      if tag = TypeHost then
        match decodeHost d with
        | some h => Except.ok (tag, Entity.host h)
        | none => Except.error ReadErr.decodeFailed
      else if tag = TypeGroup then
        match decodeGroup d with
        | some g => Except.ok (tag, Entity.group g)
        | none => Except.error ReadErr.decodeFailed
      else if tag = TypeCredential then
        match decodeCredential d with
        | some c => Except.ok (tag, Entity.credential c)
        | none => Except.error ReadErr.decodeFailed
      else if tag = TypeConfig then
        match decodeConfig d with
        | some c => Except.ok (tag, Entity.config c)
        | none => Except.error ReadErr.decodeFailed
      else Except.error (ReadErr.unknownType tag)

/-- `filepath.Ext`: the suffix starting at the final dot, empty when the
name holds no dot (filenames here contain no path separator). -/
def fileExt (filename : String) : String :=
  match filename.splitOn "." with
  | [] => ""
  | [_] => ""
  | parts => "." ++ parts.getLastD ""

/-- `isYAMLFile` (`repository.go` lines 239-242). -/
def isYAMLFile (filename : String) : Bool :=
  fileExt filename == ".yaml" || fileExt filename == ".yml"

/-- `Repository.List` (`repository.go` lines 185-205): every stored
filename with a recognized data-file extension (the store holds files
only, so the directory filter is implicit). -/
def ListFiles (r : Store) : List String :=
  (r.map Prod.fst).filter isYAMLFile

/-- `Repository.ListByType` (`repository.go` lines 207-235): re-read
every listed file, skip it when it cannot be read or its header cannot
be parsed, keep it when the parsed `type` field equals the requested
tag. -/
def ListByType (r : Store) (docType : String) : List String :=
  (ListFiles r).filter (fun f =>
    match lookupA r f with
    | some (FileData.parsed d) =>
      match extractTag d with
      | some tag => tag == docType
      | none => false
    | _ => false)

/-! ### C7: write/read round-trip -/

lemma lookupA_append {α : Type} (l1 l2 : List (String × α)) (k : String) :
    lookupA (l1 ++ l2) k = (lookupA l1 k).or (lookupA l2 k) := by
  induction l1 with
  | nil => simp [lookupA]
  | cons p rest ih =>
    by_cases hk : p.1 = k <;> simp [lookupA, hk, ih]

lemma lookupA_insertA_self {α : Type} (l : List (String × α)) (k : String)
    (v : α) : lookupA (insertA l k v) k = some v := by
  induction l with
  | nil => simp [insertA, lookupA]
  | cons p rest ih =>
    by_cases hk : p.1 = k
    · simp [insertA, lookupA, hk]
    · simp [insertA, lookupA, hk, ih]

lemma lookupA_optStr (k k2 s : String) :
    lookupA (optStr k s) k2 =
      if k = k2 ∧ ¬ s = "" then some (Value.str s) else none := by
  unfold optStr
  by_cases hs : s = "" <;> by_cases hk : k = k2 <;> simp [lookupA, hs, hk]

lemma lookupA_optList (k k2 : String) (l : List String) :
    lookupA (optList k l) k2 =
      if k = k2 ∧ ¬ l = [] then some (Value.strList l) else none := by
  unfold optList
  by_cases hs : l = [] <;> by_cases hk : k = k2 <;> simp [lookupA, hs, hk]

lemma lookupA_optMap (k k2 : String) (kvs : List (String × String)) :
    lookupA (optMap k kvs) k2 =
      if k = k2 ∧ ¬ kvs = [] then some (Value.strMap kvs) else none := by
  unfold optMap
  by_cases hs : kvs = [] <;> by_cases hk : k = k2 <;> simp [lookupA, hs, hk]

lemma getStr_optStr_self (pre : List (String × Value)) (k s : String)
    (post : List (String × Value)) (hpre : lookupA pre k = none)
    (hpost : lookupA post k = none) :
    getStr (pre ++ (optStr k s ++ post)) k = some s := by
  by_cases hs : s = "" <;>
    simp [getStr, lookupA_append, lookupA_optStr, hpre, hpost, hs]

lemma decodeHost_encodeHost (h : Host) :
    decodeHost (encodeHost h) =
      some { h with Status := HostStatus.unknown, LastPingTime := 0 } := by
  have e1 : getStr (encodeHost h) "type" = some h.typeTag := by
    simp [getStr, encodeHost, lookupA, lookupA_append]
  have e2 : getStr (encodeHost h) "id" = some h.ID := by
    simp [getStr, encodeHost, lookupA, lookupA_append]
  have e3 : getStr (encodeHost h) "name" = some h.Name := by
    simp [getStr, encodeHost, lookupA, lookupA_append]
  have e4 : getStr (encodeHost h) "description" = some h.Description := by
    by_cases hd : h.Description = "" <;>
      simp [getStr, encodeHost, lookupA, lookupA_append, lookupA_optStr,
        lookupA_optList, lookupA_optMap, hd]
  have e5 : getStr (encodeHost h) "address" = some h.Address := by
    simp [getStr, encodeHost, lookupA, lookupA_append, lookupA_optStr]
  have e6 : getInt (encodeHost h) "port" = some h.Port := by
    simp [getInt, encodeHost, lookupA, lookupA_append, lookupA_optStr]
  have e7 : getStr (encodeHost h) "credential_id" = some h.CredentialID := by
    by_cases hd : h.CredentialID = "" <;>
      simp [getStr, encodeHost, lookupA, lookupA_append, lookupA_optStr,
        lookupA_optList, lookupA_optMap, hd]
  have e8 : getStr (encodeHost h) "user" = some h.User := by
    by_cases hd : h.User = "" <;>
      simp [getStr, encodeHost, lookupA, lookupA_append, lookupA_optStr,
        lookupA_optList, lookupA_optMap, hd]
  have e9 : getStr (encodeHost h) "key_path" = some h.KeyPath := by
    by_cases hd : h.KeyPath = "" <;>
      simp [getStr, encodeHost, lookupA, lookupA_append, lookupA_optStr,
        lookupA_optList, lookupA_optMap, hd]
  have e10 : getStr (encodeHost h) "password" = some h.Password := by
    by_cases hd : h.Password = "" <;>
      simp [getStr, encodeHost, lookupA, lookupA_append, lookupA_optStr,
        lookupA_optList, lookupA_optMap, hd]
  have e11 : getStrList (encodeHost h) "tags" = some h.Tags := by
    by_cases hd : h.Tags = [] <;>
      simp [getStrList, encodeHost, lookupA, lookupA_append, lookupA_optStr,
        lookupA_optList, lookupA_optMap, hd]
  have e12 : getStrMap (encodeHost h) "vars" = some h.Vars := by
    by_cases hd : h.Vars = [] <;>
      simp [getStrMap, encodeHost, lookupA, lookupA_append, lookupA_optStr,
        lookupA_optList, lookupA_optMap, hd]
  simp [decodeHost, e1, e2, e3, e4, e5, e6, e7, e8, e9, e10, e11, e12]

lemma decodeCredential_encodeCredential (c : Credential) :
    decodeCredential (encodeCredential c) = some c := by
  have e1 : getStr (encodeCredential c) "type" = some c.typeTag := by
    simp [getStr, encodeCredential, lookupA, lookupA_append]
  have e2 : getStr (encodeCredential c) "id" = some c.ID := by
    simp [getStr, encodeCredential, lookupA, lookupA_append]
  have e3 : getStr (encodeCredential c) "name" = some c.Name := by
    simp [getStr, encodeCredential, lookupA, lookupA_append]
  have e4 : getStr (encodeCredential c) "description" = some c.Description := by
    by_cases hd : c.Description = "" <;>
      simp [getStr, encodeCredential, lookupA, lookupA_append, lookupA_optStr, hd]
  have e5 : getStr (encodeCredential c) "user" = some c.User := by
    simp [getStr, encodeCredential, lookupA, lookupA_append, lookupA_optStr]
  have e6 : getStr (encodeCredential c) "key_path" = some c.KeyPath := by
    by_cases hd : c.KeyPath = "" <;>
      simp [getStr, encodeCredential, lookupA, lookupA_append, lookupA_optStr, hd]
  have e7 : getStr (encodeCredential c) "password" = some c.Password := by
    by_cases hd : c.Password = "" <;>
      simp [getStr, encodeCredential, lookupA, lookupA_append, lookupA_optStr, hd]
  have e8 : getStr (encodeCredential c) "passphrase" = some c.Passphrase := by
    by_cases hd : c.Passphrase = "" <;>
      simp [getStr, encodeCredential, lookupA, lookupA_append, lookupA_optStr, hd]
  simp [decodeCredential, e1, e2, e3, e4, e5, e6, e7, e8]

lemma decodeGroup_encodeGroup (g : Group) :
    decodeGroup (encodeGroup g) = some g := by
  have e1 : getStr (encodeGroup g) "type" = some g.typeTag := by
    simp [getStr, encodeGroup, lookupA, lookupA_append]
  have e2 : getStr (encodeGroup g) "name" = some g.Name := by
    simp [getStr, encodeGroup, lookupA, lookupA_append]
  have e3 : getStr (encodeGroup g) "description" = some g.Description := by
    by_cases hd : g.Description = "" <;>
      simp [getStr, encodeGroup, lookupA, lookupA_append, lookupA_optStr,
        lookupA_optList, lookupA_optMap, hd]
  have e4 : getStrList (encodeGroup g) "host_ids" = some g.HostIDs := by
    simp [getStrList, encodeGroup, lookupA, lookupA_append, lookupA_optStr]
  have e5 : getStrMap (encodeGroup g) "vars" = some g.Vars := by
    by_cases hd : g.Vars = [] <;>
      simp [getStrMap, encodeGroup, lookupA, lookupA_append, lookupA_optStr,
        lookupA_optList, lookupA_optMap, hd]
  have e6 : getStrList (encodeGroup g) "child_groups" =
      some g.ChildGroupNames := by
    by_cases hd : g.ChildGroupNames = [] <;>
      simp [getStrList, encodeGroup, lookupA, lookupA_append, lookupA_optStr,
        lookupA_optList, lookupA_optMap, hd]
  simp [decodeGroup, e1, e2, e3, e4, e5, e6]

lemma decodeConfig_encodeConfig (c : Config) :
    decodeConfig (encodeConfig c) =
      some { c with BaseDir := "", ConfigPath := "" } := by
  simp [decodeConfig, encodeConfig, getStr, getInt, lookupA]

/-- The tag `Read` extracts from a freshly encoded entity is the
entity's own tag field. -/
lemma extractTag_encodeEntity (e : Entity) :
    extractTag (encodeEntity e) =
      some (match e with
            | Entity.host h => h.typeTag
            | Entity.group g => g.typeTag
            | Entity.credential c => c.typeTag
            | Entity.config c => c.typeTag) := by
  cases e <;>
    simp [extractTag, encodeEntity, encodeHost, encodeGroup,
      encodeCredential, encodeConfig, lookupA]

/-- The tag belonging to each entity kind. -/
def entityTag : Entity → String
  | Entity.host _ => TypeHost
  | Entity.group _ => TypeGroup
  | Entity.credential _ => TypeCredential
  | Entity.config _ => TypeConfig

/-- A well-formed entity value carries the tag of its own kind (as
every constructor in the source does). -/
def entityTagOK : Entity → Prop
  | Entity.host h => h.typeTag = TypeHost
  | Entity.group g => g.typeTag = TypeGroup
  | Entity.credential c => c.typeTag = TypeCredential
  | Entity.config c => c.typeTag = TypeConfig

instance : DecidablePred entityTagOK := fun e =>
  match e with
  | Entity.host h => inferInstanceAs (Decidable (h.typeTag = TypeHost))
  | Entity.group g => inferInstanceAs (Decidable (g.typeTag = TypeGroup))
  | Entity.credential c =>
    inferInstanceAs (Decidable (c.typeTag = TypeCredential))
  | Entity.config c => inferInstanceAs (Decidable (c.typeTag = TypeConfig))

/-- The `yaml:"-"` runtime fields are at their zero values. -/
def runtimeCleared : Entity → Prop
  | Entity.host h => h.Status = HostStatus.unknown ∧ h.LastPingTime = 0
  | Entity.group _ => True
  | Entity.credential _ => True
  | Entity.config c => c.BaseDir = "" ∧ c.ConfigPath = ""

instance : DecidablePred runtimeCleared := fun e =>
  match e with
  | Entity.host h => inferInstanceAs
    (Decidable (h.Status = HostStatus.unknown ∧ h.LastPingTime = 0))
  | Entity.group _ => inferInstanceAs (Decidable True)
  | Entity.credential _ => inferInstanceAs (Decidable True)
  | Entity.config c => inferInstanceAs
    (Decidable (c.BaseDir = "" ∧ c.ConfigPath = ""))

/-- A host whose runtime status is set; the spec's round-trip claim
fails on it. -/
def hostOnline : Host := { host1 with Status := HostStatus.online }

/-- C7 counterexample: `Write` drops the `yaml:"-"` fields, so reading
back a host whose runtime `Status` was `online` yields a host whose
`Status` field is `unknown` — not every field of the original is
reproduced. -/
theorem roundtrip_drops_runtime_fields :
    hostOnline.Status = HostStatus.online ∧
    Read (Write [] "h.yaml" (Entity.host hostOnline)) "h.yaml" =
      Except.ok (TypeHost,
        Entity.host { hostOnline with Status := HostStatus.unknown }) ∧
    ({ hostOnline with Status := HostStatus.unknown } : Host) ≠
      hostOnline := by
  refine ⟨rfl, ?_, by decide⟩
  rfl

/-- C7 amended: for every entity kind, `Write` followed by `Read` of a
value carrying its kind's type tag returns the same concrete shape with
every PERSISTED field equal; the `yaml:"-"` runtime fields (`Status`,
`LastPingTime`, `BaseDir`, `ConfigPath`) come back as zero values, so
the round trip is the identity exactly on values whose runtime fields
are already zero. -/
theorem Write_Read_roundtrip (r : Store) (f : String) (e : Entity)
    (htag : entityTagOK e) (hrt : runtimeCleared e) :
    Read (Write r f e) f = Except.ok (entityTag e, e) := by
  cases e with
  | host h =>
    have h1 : h.typeTag = TypeHost := htag
    obtain ⟨h2, h3⟩ :=
      (hrt : h.Status = HostStatus.unknown ∧ h.LastPingTime = 0)
    have ext : extractTag (encodeHost h) = some h.typeTag := by
      simp [extractTag, encodeHost, lookupA]
    have hdec : decodeHost (encodeHost h) = some h := by
      rw [decodeHost_encodeHost]
      cases h with
      | mk t id nm de ad po cr us kp pw tg vr st lp =>
        replace h2 : st = HostStatus.unknown := h2
        replace h3 : lp = 0 := h3
        subst h2
        subst h3
        rfl
    simp only [Read, Write, encodeEntity, lookupA_insertA_self, ext, h1,
      hdec]
    simp [TypeHost, TypeGroup, TypeCredential, TypeConfig, entityTag]
  | group g =>
    have h1 : g.typeTag = TypeGroup := htag
    have ext : extractTag (encodeGroup g) = some g.typeTag := by
      simp [extractTag, encodeGroup, lookupA]
    simp only [Read, Write, encodeEntity, lookupA_insertA_self, ext, h1,
      decodeGroup_encodeGroup]
    simp [TypeHost, TypeGroup, TypeCredential, TypeConfig, entityTag]
  | credential c =>
    have h1 : c.typeTag = TypeCredential := htag
    have ext : extractTag (encodeCredential c) = some c.typeTag := by
      simp [extractTag, encodeCredential, lookupA]
    simp only [Read, Write, encodeEntity, lookupA_insertA_self, ext, h1,
      decodeCredential_encodeCredential]
    simp [TypeHost, TypeGroup, TypeCredential, TypeConfig, entityTag]
  | config c =>
    have h1 : c.typeTag = TypeConfig := htag
    obtain ⟨h2, h3⟩ := (hrt : c.BaseDir = "" ∧ c.ConfigPath = "")
    have ext : extractTag (encodeConfig c) = some c.typeTag := by
      simp [extractTag, encodeConfig, lookupA]
    have hdec : decodeConfig (encodeConfig c) = some c := by
      rw [decodeConfig_encodeConfig]
      cases c with
      | mk t dd th la dp st bd cp =>
        replace h2 : bd = "" := h2
        replace h3 : cp = "" := h3
        subst h2
        subst h3
        rfl
    simp only [Read, Write, encodeEntity, lookupA_insertA_self, ext, h1,
      hdec]
    simp [TypeHost, TypeGroup, TypeCredential, TypeConfig, entityTag]

theorem Write_Read_roundtrip_witness :
    entityTagOK (Entity.host host1) ∧
    runtimeCleared (Entity.host host1) ∧
    Read (Write [] "host1.yaml" (Entity.host host1)) "host1.yaml" =
      Except.ok (TypeHost, Entity.host host1) :=
  ⟨by decide, by decide,
   Write_Read_roundtrip [] "host1.yaml" (Entity.host host1)
     (by decide) (by decide)⟩

/-! ### C8: `ListByType` filters exactly by parsed tag -/

/-- The tag a header re-parse of a stored file yields: `none` when the
file is absent, unreadable or its header cannot be parsed. -/
def parsedTag (r : Store) (f : String) : Option String :=
  match lookupA r f with
  | some (FileData.parsed d) => extractTag d
  | _ => none

lemma mem_keys_iff_lookupA {α : Type} (l : List (String × α)) (k : String) :
    k ∈ l.map Prod.fst ↔ (lookupA l k).isSome := by
  induction l with
  | nil => simp [lookupA]
  | cons p rest ih =>
    by_cases hk : p.1 = k
    · simp [lookupA, hk]
    · have hk2 : ¬ k = p.1 := fun hcontra => hk hcontra.symm
      simp [lookupA, hk, hk2, ih]

/-- C8: `ListByType(t)` holds exactly the stored filenames that carry a
recognized data-file extension and whose re-parsed `type` header equals
`t`; a file that is unreadable or fails to parse is skipped (its
`parsedTag` is `none`), never an error. -/
theorem ListByType_exact (r : Store) (t : String)
    (hnd : (r.map Prod.fst).Nodup) :
    (∀ f, f ∈ ListByType r t ↔
      ((lookupA r f).isSome ∧ isYAMLFile f = true ∧
       parsedTag r f = some t))
    ∧ (ListByType r t).Nodup := by
  constructor
  · intro f
    unfold ListByType ListFiles
    rw [List.mem_filter, List.mem_filter]
    cases hl : lookupA r f with
    | none =>
      have hmem : ¬ f ∈ r.map Prod.fst := by
        rw [mem_keys_iff_lookupA, hl]
        simp
      simp [hl, hmem]
    | some fd =>
      have hmem : f ∈ r.map Prod.fst := by
        rw [mem_keys_iff_lookupA, hl]
        simp
      cases fd with
      | malformed => simp [hl, hmem, parsedTag]
      | parsed d =>
        cases he : extractTag d with
        | none => simp [hl, hmem, parsedTag, he]
        | some tag => simp [hl, hmem, parsedTag, he, beq_iff_eq]
  · exact (hnd.filter _).filter _

/-- Store mixing a host document, a malformed file, a non-YAML filename
and a group document. -/
def storeMix : Store :=
  [("h.yaml", FileData.parsed (encodeHost host1)),
   ("bad.yaml", FileData.malformed),
   ("note.txt", FileData.parsed (encodeHost host1)),
   ("g.yaml", FileData.parsed (encodeGroup groupSolo))]

theorem ListByType_exact_witness :
    (storeMix.map Prod.fst).Nodup ∧
    ("h.yaml" ∈ ListByType storeMix "host" ↔
      ((lookupA storeMix "h.yaml").isSome ∧ isYAMLFile "h.yaml" = true ∧
       parsedTag storeMix "h.yaml" = some "host")) :=
  ⟨by decide, (ListByType_exact storeMix "host" (by decide)).1 "h.yaml"⟩

/-! ### C9: the error classification of `Read` -/

/-- C9: `Read` fails with `NotFound` exactly when the file is absent;
on a parsed document it fails with `UnknownType` exactly when the
extracted tag is not one of the four recognized tags (a missing `type`
key extracts as the zero value `""`, hence `UnknownType`); and on a
recognized tag it dispatches to the shape the tag names, returning that
concrete shape on a successful full decode and a decode failure
otherwise. -/
theorem Read_error_classification (r : Store) (f : String) :
    ((Read r f = Except.error (ReadErr.notFound f)) ↔ lookupA r f = none)
    ∧ (∀ d, lookupA r f = some (FileData.parsed d) →
        lookupA d "type" = none →
        Read r f = Except.error (ReadErr.unknownType ""))
    ∧ (∀ d tag, lookupA r f = some (FileData.parsed d) →
        extractTag d = some tag →
        ((Read r f = Except.error (ReadErr.unknownType tag)) ↔
          (tag ≠ TypeHost ∧ tag ≠ TypeGroup ∧ tag ≠ TypeCredential ∧
           tag ≠ TypeConfig)))
    ∧ (∀ d, lookupA r f = some (FileData.parsed d) →
        extractTag d = some TypeHost →
        ((∃ h, decodeHost d = some h ∧
            Read r f = Except.ok (TypeHost, Entity.host h)) ∨
         (decodeHost d = none ∧
            Read r f = Except.error ReadErr.decodeFailed)))
    ∧ (∀ d, lookupA r f = some (FileData.parsed d) →
        extractTag d = some TypeGroup →
        ((∃ g, decodeGroup d = some g ∧
            Read r f = Except.ok (TypeGroup, Entity.group g)) ∨
         (decodeGroup d = none ∧
            Read r f = Except.error ReadErr.decodeFailed)))
    ∧ (∀ d, lookupA r f = some (FileData.parsed d) →
        extractTag d = some TypeCredential →
        ((∃ c, decodeCredential d = some c ∧
            Read r f = Except.ok (TypeCredential, Entity.credential c)) ∨
         (decodeCredential d = none ∧
            Read r f = Except.error ReadErr.decodeFailed)))
    ∧ (∀ d, lookupA r f = some (FileData.parsed d) →
        extractTag d = some TypeConfig →
        ((∃ c, decodeConfig d = some c ∧
            Read r f = Except.ok (TypeConfig, Entity.config c)) ∨
         (decodeConfig d = none ∧
            Read r f = Except.error ReadErr.decodeFailed))) := by
  refine ⟨?_, ?_, ?_, ?_, ?_, ?_, ?_⟩
  · cases hl : lookupA r f with
    | none => simp [Read, hl]
    | some fd =>
      cases fd with
      | malformed => simp [Read, hl]
      | parsed d =>
        simp only [Read, hl]
        constructor
        · intro hbad
          exfalso
          revert hbad
          cases he : extractTag d with
          | none => simp
          | some tag =>
            simp only []
            split_ifs
            · cases hd : decodeHost d <;> simp [hd]
            · cases hd : decodeGroup d <;> simp [hd]
            · cases hd : decodeCredential d <;> simp [hd]
            · cases hd : decodeConfig d <;> simp [hd]
            · simp
        · intro hbad
          exact absurd hbad (by simp)
  · intro d hl htype
    have he : extractTag d = some "" := by simp [extractTag, htype]
    simp [Read, hl, he, TypeHost, TypeGroup, TypeCredential, TypeConfig]
  · intro d tag hl he
    simp only [Read, hl, he]
    constructor
    · intro hred
      refine ⟨?_, ?_, ?_, ?_⟩ <;> intro hx
      · rw [hx] at hred
        rw [if_pos rfl] at hred
        cases hd : decodeHost d <;> rw [hd] at hred <;> simp at hred
      · rw [hx] at hred
        rw [if_neg (by decide), if_pos rfl] at hred
        cases hd : decodeGroup d <;> rw [hd] at hred <;> simp at hred
      · rw [hx] at hred
        rw [if_neg (by decide), if_neg (by decide), if_pos rfl] at hred
        cases hd : decodeCredential d <;> rw [hd] at hred <;> simp at hred
      · rw [hx] at hred
        rw [if_neg (by decide), if_neg (by decide), if_neg (by decide),
          if_pos rfl] at hred
        cases hd : decodeConfig d <;> rw [hd] at hred <;> simp at hred
    · rintro ⟨h1, h2, h3, h4⟩
      rw [if_neg h1, if_neg h2, if_neg h3, if_neg h4]
  · intro d hl he
    simp only [Read, hl, he]
    cases hd : decodeHost d with
    | some h => exact Or.inl ⟨h, rfl, rfl⟩
    | none => exact Or.inr ⟨rfl, rfl⟩
  · intro d hl he
    simp only [Read, hl, he]
    cases hd : decodeGroup d with
    | some g => exact Or.inl ⟨g, rfl, rfl⟩
    | none => exact Or.inr ⟨rfl, rfl⟩
  · intro d hl he
    simp only [Read, hl, he]
    cases hd : decodeCredential d with
    | some c => exact Or.inl ⟨c, rfl, rfl⟩
    | none => exact Or.inr ⟨rfl, rfl⟩
  · intro d hl he
    simp only [Read, hl, he]
    cases hd : decodeConfig d with
    | some c => exact Or.inl ⟨c, rfl, rfl⟩
    | none => exact Or.inr ⟨rfl, rfl⟩

/-- The document of the test scenario "file without type field". -/
def noTypeDoc : List (String × Value) :=
  [("name", Value.str "test"), ("address", Value.str "1.2.3.4")]

def storeNoType : Store := [("no_type.yaml", FileData.parsed noTypeDoc)]

theorem Read_error_classification_witness :
    (lookupA storeNoType "no_type.yaml" =
       some (FileData.parsed noTypeDoc) ∧
     lookupA noTypeDoc "type" = none) ∧
    Read storeNoType "no_type.yaml" =
      Except.error (ReadErr.unknownType "") := by
  have hmain := Read_error_classification storeNoType "no_type.yaml"
  exact ⟨⟨rfl, rfl⟩, hmain.2.1 noTypeDoc rfl rfl⟩

/-! ### C6: `GetAllHostsInGroup` (`manager.go` lines 431-466)

The Go closure `collectHosts` recurses through child groups with no
cycle guard.  The embedding makes the recursion depth explicit as fuel:
`none` means the recursion exceeded the given depth bound, so "the
traversal does not terminate" is "`collect` is `none` for every fuel".
The shared mutable `hostMap` is the threaded accumulator keyed by host
id. -/

/-- The direct-host loop of `collectHosts`: `hostMap[hostID] = h` for
every resolvable member. -/
def addDirect (m : Manager) (g : Group) (acc : List (String × Host)) :
    List (String × Host) :=
  g.HostIDs.foldl
    (fun a hid =>
      match lookupA m.hosts hid with
      | some h => insertA a hid h
      | none => a)
    acc

mutual

/-- One call of `collectHosts` with recursion depth bounded by `fuel`. -/
def collect (m : Manager) : Nat → Group → List (String × Host) →
    Option (List (String × Host))
  | 0, _, _ => none
  | Nat.succ fuel, g, acc => collectChildren m fuel g.ChildGroupNames
      (addDirect m g acc)
termination_by fuel _ _ => (fuel, 0)

/-- The child-group loop of `collectHosts`: recurse into each child
that resolves in the group map. -/
def collectChildren (m : Manager) : Nat → List String →
    List (String × Host) → Option (List (String × Host))
  | _, [], acc => some acc
  | fuel, c :: cs, acc =>
    match lookupA m.groups c with
    | none => collectChildren m fuel cs acc
    | some gc =>
      match collect m fuel gc acc with
      | none => none
      | some acc2 => collectChildren m fuel cs acc2
termination_by fuel cs _ => (fuel, cs.length + 1)

end

/-- `Manager.GetAllHostsInGroup`, depth-indexed.  The Go function
returns the accumulated map's values in unspecified map order; the
model returns the accumulated map itself (`none` inside `ok` = the
unguarded recursion exceeds every bound). -/
def Manager.GetAllHostsInGroup (m : Manager) (fuel : Nat) (name : String) :
    Except MgrErr (Option (List (String × Host))) :=
  match lookupA m.groups name with
  | none => Except.error (MgrErr.groupNotFound name)
  | some g => Except.ok (collect m fuel g [])

/-- The child-group edge the traversal follows: `a`'s group value lists
`b` as a child and `b` resolves in the group map. -/
def childEdge (m : Manager) (a b : String) : Prop :=
  ∃ g, lookupA m.groups a = some g ∧ b ∈ g.ChildGroupNames ∧
    (lookupA m.groups b).isSome

/-- No group name reaches itself through child-group edges. -/
def Acyclic (m : Manager) : Prop :=
  ∀ a, ¬ Relation.TransGen (childEdge m) a a

/-- Host id `k` is a resolvable direct member of the group named `t`. -/
def directMember (m : Manager) (t k : String) : Prop :=
  ∃ g h, lookupA m.groups t = some g ∧ k ∈ g.HostIDs ∧
    lookupA m.hosts k = some h

/-- The names strictly reachable from `a` through child edges. -/
def descSet (m : Manager) (a : String) : Set String :=
  {b | Relation.TransGen (childEdge m) a b}

/-- The depth rank used to bound the recursion (proof-side measure
only, not program code). -/
noncomputable def rank (m : Manager) (a : String) : Nat :=
  (descSet m a).ncard

lemma collect_zero (m : Manager) (g : Group) (acc : List (String × Host)) :
    collect m 0 g acc = none := by
  simp [collect]

lemma collect_succ (m : Manager) (fuel : Nat) (g : Group)
    (acc : List (String × Host)) :
    collect m (fuel + 1) g acc =
      collectChildren m fuel g.ChildGroupNames (addDirect m g acc) := by
  simp [collect]

lemma collectChildren_nil (m : Manager) (fuel : Nat)
    (acc : List (String × Host)) :
    collectChildren m fuel [] acc = some acc := by
  simp [collectChildren]

lemma collectChildren_cons (m : Manager) (fuel : Nat) (c : String)
    (cs : List String) (acc : List (String × Host)) :
    collectChildren m fuel (c :: cs) acc =
      match lookupA m.groups c with
      | none => collectChildren m fuel cs acc
      | some gc =>
        match collect m fuel gc acc with
        | none => none
        | some acc2 => collectChildren m fuel cs acc2 := by
  simp [collectChildren]

lemma keys_insertA {α : Type} (l : List (String × α)) (k k2 : String)
    (v : α) :
    k2 ∈ (insertA l k v).map Prod.fst ↔ k2 ∈ l.map Prod.fst ∨ k2 = k := by
  induction l with
  | nil => simp [insertA]
  | cons p rest ih =>
    by_cases hk : p.1 = k
    · subst hk
      have hred : insertA (p :: rest) p.1 v = (p.1, v) :: rest := by
        simp [insertA]
      rw [hred]
      simp only [List.map_cons, List.mem_cons]
      tauto
    · simp only [insertA, if_neg hk, List.map_cons, List.mem_cons, ih]
      tauto

lemma entries_insertA {α : Type} (l : List (String × α)) (k k2 : String)
    (v v2 : α) (hm : (k2, v2) ∈ insertA l k v) :
    (k2, v2) ∈ l ∨ (k2 = k ∧ v2 = v) := by
  induction l with
  | nil =>
    simp only [insertA, List.mem_singleton] at hm
    exact Or.inr ⟨congrArg Prod.fst hm, congrArg Prod.snd hm⟩
  | cons p rest ih =>
    by_cases hk : p.1 = k
    · rw [insertA, if_pos hk] at hm
      rcases List.mem_cons.mp hm with h | h
      · exact Or.inr ⟨congrArg Prod.fst h, congrArg Prod.snd h⟩
      · exact Or.inl (List.mem_cons_of_mem p h)
    · rw [insertA, if_neg hk] at hm
      rcases List.mem_cons.mp hm with h | h
      · exact Or.inl (List.mem_cons.mpr (Or.inl h))
      · rcases ih h with h2 | h2
        · exact Or.inl (List.mem_cons_of_mem p h2)
        · exact Or.inr h2

lemma keys_insertA_nodup {α : Type} (l : List (String × α)) (k : String)
    (v : α) (hnd : (l.map Prod.fst).Nodup) :
    ((insertA l k v).map Prod.fst).Nodup := by
  induction l with
  | nil => simp [insertA]
  | cons p rest ih =>
    simp only [List.map_cons, List.nodup_cons] at hnd
    by_cases hk : p.1 = k
    · subst hk
      have hred : insertA (p :: rest) p.1 v = (p.1, v) :: rest := by
        simp [insertA]
      rw [hred]
      simp only [List.map_cons, List.nodup_cons]
      exact hnd
    · simp only [insertA, if_neg hk, List.map_cons, List.nodup_cons]
      refine ⟨?_, ih hnd.2⟩
      intro hcontra
      rcases (keys_insertA rest k p.1 v).mp hcontra with h | h
      · exact hnd.1 h
      · exact hk h

lemma keys_addDirect (m : Manager) (g : Group) (acc : List (String × Host))
    (k : String) :
    k ∈ (addDirect m g acc).map Prod.fst ↔
      k ∈ acc.map Prod.fst ∨
        (k ∈ g.HostIDs ∧ (lookupA m.hosts k).isSome) := by
  unfold addDirect
  generalize g.HostIDs = ids
  induction ids generalizing acc with
  | nil => simp
  | cons i ids ih =>
    rw [List.foldl_cons]
    cases hl : lookupA m.hosts i with
    | none =>
      rw [ih]
      simp only [List.mem_cons]
      constructor
      · rintro (h | ⟨h1, h2⟩)
        · exact Or.inl h
        · exact Or.inr ⟨Or.inr h1, h2⟩
      · rintro (h | ⟨h1 | h1, h2⟩)
        · exact Or.inl h
        · subst h1
          rw [hl] at h2
          exact absurd h2 (by simp)
        · exact Or.inr ⟨h1, h2⟩
    | some h =>
      rw [ih]
      simp only [keys_insertA, List.mem_cons]
      constructor
      · rintro ((h1 | h1) | ⟨h1, h2⟩)
        · exact Or.inl h1
        · subst h1
          exact Or.inr ⟨Or.inl rfl, by simp [hl]⟩
        · exact Or.inr ⟨Or.inr h1, h2⟩
      · rintro (h1 | ⟨h1 | h1, h2⟩)
        · exact Or.inl (Or.inl h1)
        · subst h1
          exact Or.inl (Or.inr rfl)
        · exact Or.inr ⟨h1, h2⟩

lemma entries_addDirect (m : Manager) (g : Group)
    (acc : List (String × Host)) (k : String) (h : Host)
    (hm : (k, h) ∈ addDirect m g acc) :
    (k, h) ∈ acc ∨ lookupA m.hosts k = some h := by
  unfold addDirect at hm
  revert hm
  generalize g.HostIDs = ids
  induction ids generalizing acc with
  | nil =>
    intro hm
    exact Or.inl hm
  | cons i ids ih =>
    intro hm
    rw [List.foldl_cons] at hm
    cases hl : lookupA m.hosts i with
    | none =>
      rw [hl] at hm
      exact ih acc hm
    | some hv =>
      rw [hl] at hm
      rcases ih _ hm with h2 | h2
      · rcases entries_insertA acc i k hv h h2 with h3 | h3
        · exact Or.inl h3
        · rw [h3.1, h3.2]
          exact Or.inr hl
      · exact Or.inr h2

lemma keys_addDirect_nodup (m : Manager) (g : Group)
    (acc : List (String × Host)) (hnd : (acc.map Prod.fst).Nodup) :
    ((addDirect m g acc).map Prod.fst).Nodup := by
  unfold addDirect
  revert hnd
  generalize g.HostIDs = ids
  induction ids generalizing acc with
  | nil =>
    intro hnd
    exact hnd
  | cons i ids ih =>
    intro hnd
    rw [List.foldl_cons]
    cases hl : lookupA m.hosts i with
    | none => exact ih acc hnd
    | some hv => exact ih _ (keys_insertA_nodup acc i hv hnd)

/-- Adding fuel never changes a successful traversal. -/
lemma collect_mono (m : Manager) (n : Nat) :
    (∀ g acc res, collect m n g acc = some res →
       collect m (n + 1) g acc = some res) ∧
    (∀ cs acc res, collectChildren m n cs acc = some res →
       collectChildren m (n + 1) cs acc = some res) := by
  induction n with
  | zero =>
    constructor
    · intro g acc res h
      rw [collect_zero] at h
      exact absurd h (by simp)
    · intro cs
      induction cs with
      | nil =>
        intro acc res h
        rw [collectChildren_nil] at h ⊢
        exact h
      | cons c rest ihc =>
        intro acc res h
        rw [collectChildren_cons] at h ⊢
        cases hl : lookupA m.groups c with
        | none =>
          simp only [hl] at h ⊢
          exact ihc acc res h
        | some gc =>
          simp only [hl] at h
          rw [collect_zero] at h
          simp at h
  | succ n ih =>
    have hP : ∀ g acc res, collect m (n + 1) g acc = some res →
        collect m (n + 2) g acc = some res := by
      intro g acc res h
      rw [collect_succ] at h ⊢
      exact ih.2 _ _ _ h
    refine ⟨hP, ?_⟩
    intro cs
    induction cs with
    | nil =>
      intro acc res h
      rw [collectChildren_nil] at h ⊢
      exact h
    | cons c rest ihc =>
      intro acc res h
      rw [collectChildren_cons] at h ⊢
      cases hl : lookupA m.groups c with
      | none =>
        simp only [hl] at h ⊢
        exact ihc acc res h
      | some gc =>
        simp only [hl] at h ⊢
        cases hcol : collect m (n + 1) gc acc with
        | none =>
          simp only [hcol] at h
          exact absurd h (by simp)
        | some mid =>
          simp only [hcol] at h
          simp only [hP gc acc mid hcol]
          exact ihc mid res h

lemma collect_mono_le (m : Manager) {n fuel : Nat} (hle : n ≤ fuel)
    (g : Group) (acc res : List (String × Host))
    (h : collect m n g acc = some res) : collect m fuel g acc = some res := by
  induction hle with
  | refl => exact h
  | step _ ih => exact (collect_mono m _).1 _ _ _ ih

lemma descSet_finite (m : Manager) (a : String) : (descSet m a).Finite := by
  apply Set.Finite.subset (List.finite_toSet (m.groups.map Prod.fst))
  intro b hb
  have hmem : (lookupA m.groups b).isSome := by
    induction hb with
    | single he =>
      obtain ⟨g, _, _, hs⟩ := he
      exact hs
    | tail _ he _ =>
      obtain ⟨g, _, _, hs⟩ := he
      exact hs
  simpa using (mem_keys_iff_lookupA m.groups b).mpr hmem

lemma rank_lt_of_edge (m : Manager) (hacy : Acyclic m) {a b : String}
    (he : childEdge m a b) : rank m b < rank m a := by
  have hsub : descSet m b ⊆ descSet m a := by
    intro c hc
    exact Relation.TransGen.head he hc
  have hmem : b ∈ descSet m a := Relation.TransGen.single he
  have hnotmem : b ∉ descSet m b := hacy b
  apply Set.ncard_lt_ncard
  · exact (Set.ssubset_iff_of_subset hsub).mpr ⟨b, hmem, hnotmem⟩
  · exact descSet_finite m a

/-- With acyclic child edges, fuel above the rank of the start name is
enough for the traversal to return. -/
lemma collect_terminates (m : Manager) (hacy : Acyclic m) :
    ∀ (fuel : Nat) (name : String) (g : Group) (acc : List (String × Host)),
      lookupA m.groups name = some g → rank m name < fuel →
      ∃ res, collect m fuel g acc = some res := by
  intro fuel
  induction fuel with
  | zero =>
    intro name g acc _ hr
    exact absurd hr (Nat.not_lt_zero _)
  | succ n ih =>
    intro name g acc hg hr
    rw [collect_succ]
    have haux : ∀ (cs : List String), (∀ c ∈ cs, c ∈ g.ChildGroupNames) →
        ∀ acc2, ∃ res, collectChildren m n cs acc2 = some res := by
      intro cs
      induction cs with
      | nil =>
        intro _ acc2
        exact ⟨acc2, collectChildren_nil m n acc2⟩
      | cons c rest ihc =>
        intro hsub acc2
        rw [collectChildren_cons]
        cases hl : lookupA m.groups c with
        | none =>
          exact ihc (fun x hx => hsub x (List.mem_cons_of_mem c hx)) acc2
        | some gc =>
          have hedge : childEdge m name c :=
            ⟨g, hg, hsub c (List.mem_cons_self c rest), by simp [hl]⟩
          have hrc : rank m c < n :=
            lt_of_lt_of_le (rank_lt_of_edge m hacy hedge)
              (Nat.lt_succ_iff.mp hr)
          obtain ⟨mid, hmid⟩ := ih c gc acc2 hl hrc
          simp only [hmid]
          exact ihc (fun x hx => hsub x (List.mem_cons_of_mem c hx)) mid
    exact haux g.ChildGroupNames (fun c hc => hc) (addDirect m g acc)

/-- A successful traversal only ever adds keys to the accumulator. -/
lemma collect_keys_mono (m : Manager) (n : Nat) :
    (∀ g acc res, collect m n g acc = some res →
       ∀ k, k ∈ acc.map Prod.fst → k ∈ res.map Prod.fst) ∧
    (∀ cs acc res, collectChildren m n cs acc = some res →
       ∀ k, k ∈ acc.map Prod.fst → k ∈ res.map Prod.fst) := by
  induction n with
  | zero =>
    constructor
    · intro g acc res h
      rw [collect_zero] at h
      exact absurd h (by simp)
    · intro cs
      induction cs with
      | nil =>
        intro acc res h k hk
        rw [collectChildren_nil] at h
        injection h with h2
        subst h2
        exact hk
      | cons c rest ihc =>
        intro acc res h k hk
        rw [collectChildren_cons] at h
        cases hl : lookupA m.groups c with
        | none =>
          simp only [hl] at h
          exact ihc acc res h k hk
        | some gc =>
          simp only [hl] at h
          rw [collect_zero] at h
          simp at h
  | succ n ih =>
    have hP : ∀ g acc res, collect m (n + 1) g acc = some res →
        ∀ k, k ∈ acc.map Prod.fst → k ∈ res.map Prod.fst := by
      intro g acc res h k hk
      rw [collect_succ] at h
      apply ih.2 _ _ _ h
      rw [keys_addDirect]
      exact Or.inl hk
    refine ⟨hP, ?_⟩
    intro cs
    induction cs with
    | nil =>
      intro acc res h k hk
      rw [collectChildren_nil] at h
      injection h with h2
      subst h2
      exact hk
    | cons c rest ihc =>
      intro acc res h k hk
      rw [collectChildren_cons] at h
      cases hl : lookupA m.groups c with
      | none =>
        simp only [hl] at h
        exact ihc acc res h k hk
      | some gc =>
        simp only [hl] at h
        cases hcol : collect m (n + 1) gc acc with
        | none =>
          simp only [hcol] at h
          exact absurd h (by simp)
        | some mid =>
          simp only [hcol] at h
          exact ihc mid res h k (hP gc acc mid hcol k hk)

/-- A successful traversal keeps the accumulator's keys duplicate-free. -/
lemma collect_keys_nodup (m : Manager) (n : Nat) :
    (∀ g acc res, collect m n g acc = some res →
       (acc.map Prod.fst).Nodup → (res.map Prod.fst).Nodup) ∧
    (∀ cs acc res, collectChildren m n cs acc = some res →
       (acc.map Prod.fst).Nodup → (res.map Prod.fst).Nodup) := by
  induction n with
  | zero =>
    constructor
    · intro g acc res h
      rw [collect_zero] at h
      exact absurd h (by simp)
    · intro cs
      induction cs with
      | nil =>
        intro acc res h hk
        rw [collectChildren_nil] at h
        injection h with h2
        subst h2
        exact hk
      | cons c rest ihc =>
        intro acc res h hk
        rw [collectChildren_cons] at h
        cases hl : lookupA m.groups c with
        | none =>
          simp only [hl] at h
          exact ihc acc res h hk
        | some gc =>
          simp only [hl] at h
          rw [collect_zero] at h
          simp at h
  | succ n ih =>
    have hP : ∀ g acc res, collect m (n + 1) g acc = some res →
        (acc.map Prod.fst).Nodup → (res.map Prod.fst).Nodup := by
      intro g acc res h hk
      rw [collect_succ] at h
      exact ih.2 _ _ _ h (keys_addDirect_nodup m g acc hk)
    refine ⟨hP, ?_⟩
    intro cs
    induction cs with
    | nil =>
      intro acc res h hk
      rw [collectChildren_nil] at h
      injection h with h2
      subst h2
      exact hk
    | cons c rest ihc =>
      intro acc res h hk
      rw [collectChildren_cons] at h
      cases hl : lookupA m.groups c with
      | none =>
        simp only [hl] at h
        exact ihc acc res h hk
      | some gc =>
        simp only [hl] at h
        cases hcol : collect m (n + 1) gc acc with
        | none =>
          simp only [hcol] at h
          exact absurd h (by simp)
        | some mid =>
          simp only [hcol] at h
          exact ihc mid res h (hP gc acc mid hcol hk)

/-- Every binding a successful traversal returns was already in the
accumulator or resolves in the host map. -/
lemma collect_values (m : Manager) (n : Nat) :
    (∀ g acc res, collect m n g acc = some res →
       ∀ k h, (k, h) ∈ res → (k, h) ∈ acc ∨ lookupA m.hosts k = some h) ∧
    (∀ cs acc res, collectChildren m n cs acc = some res →
       ∀ k h, (k, h) ∈ res → (k, h) ∈ acc ∨ lookupA m.hosts k = some h) := by
  induction n with
  | zero =>
    constructor
    · intro g acc res h
      rw [collect_zero] at h
      exact absurd h (by simp)
    · intro cs
      induction cs with
      | nil =>
        intro acc res h k hv hm
        rw [collectChildren_nil] at h
        injection h with h2
        subst h2
        exact Or.inl hm
      | cons c rest ihc =>
        intro acc res h k hv hm
        rw [collectChildren_cons] at h
        cases hl : lookupA m.groups c with
        | none =>
          simp only [hl] at h
          exact ihc acc res h k hv hm
        | some gc =>
          simp only [hl] at h
          rw [collect_zero] at h
          simp at h
  | succ n ih =>
    have hP : ∀ g acc res, collect m (n + 1) g acc = some res →
        ∀ k h, (k, h) ∈ res → (k, h) ∈ acc ∨ lookupA m.hosts k = some h := by
      intro g acc res h k hv hm
      rw [collect_succ] at h
      rcases ih.2 _ _ _ h k hv hm with h2 | h2
      · exact entries_addDirect m g acc k hv h2
      · exact Or.inr h2
    refine ⟨hP, ?_⟩
    intro cs
    induction cs with
    | nil =>
      intro acc res h k hv hm
      rw [collectChildren_nil] at h
      injection h with h2
      subst h2
      exact Or.inl hm
    | cons c rest ihc =>
      intro acc res h k hv hm
      rw [collectChildren_cons] at h
      cases hl : lookupA m.groups c with
      | none =>
        simp only [hl] at h
        exact ihc acc res h k hv hm
      | some gc =>
        simp only [hl] at h
        cases hcol : collect m (n + 1) gc acc with
        | none =>
          simp only [hcol] at h
          exact absurd h (by simp)
        | some mid =>
          simp only [hcol] at h
          rcases ihc mid res h k hv hm with h2 | h2
          · exact hP gc acc mid hcol k hv h2
          · exact Or.inr h2

/-- Soundness: every key a successful traversal of `name`'s group adds
belongs to some group reachable from `name`. -/
lemma collect_sound (m : Manager) (n : Nat) :
    (∀ name g acc res, lookupA m.groups name = some g →
       collect m n g acc = some res →
       ∀ k, k ∈ res.map Prod.fst →
         k ∈ acc.map Prod.fst ∨
           ∃ t, Relation.ReflTransGen (childEdge m) name t ∧
             directMember m t k) ∧
    (∀ name g cs acc res, lookupA m.groups name = some g →
       (∀ c ∈ cs, c ∈ g.ChildGroupNames) →
       collectChildren m n cs acc = some res →
       ∀ k, k ∈ res.map Prod.fst →
         k ∈ acc.map Prod.fst ∨
           ∃ t, Relation.ReflTransGen (childEdge m) name t ∧
             directMember m t k) := by
  induction n with
  | zero =>
    constructor
    · intro name g acc res _ h
      rw [collect_zero] at h
      exact absurd h (by simp)
    · intro name g cs
      induction cs with
      | nil =>
        intro acc res _ _ h k hk
        rw [collectChildren_nil] at h
        injection h with h2
        subst h2
        exact Or.inl hk
      | cons c rest ihc =>
        intro acc res hg hsub h k hk
        rw [collectChildren_cons] at h
        cases hl : lookupA m.groups c with
        | none =>
          simp only [hl] at h
          exact ihc acc res hg
            (fun x hx => hsub x (List.mem_cons_of_mem c hx)) h k hk
        | some gc =>
          simp only [hl] at h
          rw [collect_zero] at h
          simp at h
  | succ n ih =>
    have hP : ∀ name g acc res, lookupA m.groups name = some g →
        collect m (n + 1) g acc = some res →
        ∀ k, k ∈ res.map Prod.fst →
          k ∈ acc.map Prod.fst ∨
            ∃ t, Relation.ReflTransGen (childEdge m) name t ∧
              directMember m t k := by
      intro name g acc res hg h k hk
      rw [collect_succ] at h
      rcases ih.2 name g _ _ res hg (fun c hc => hc) h k hk with h2 | h2
      · rw [keys_addDirect] at h2
        rcases h2 with h3 | ⟨h3, h4⟩
        · exact Or.inl h3
        · obtain ⟨hv, hhv⟩ := Option.isSome_iff_exists.mp h4
          exact Or.inr ⟨name, Relation.ReflTransGen.refl,
            g, hv, hg, h3, hhv⟩
      · exact Or.inr h2
    refine ⟨hP, ?_⟩
    intro name g cs
    induction cs with
    | nil =>
      intro acc res _ _ h k hk
      rw [collectChildren_nil] at h
      injection h with h2
      subst h2
      exact Or.inl hk
    | cons c rest ihc =>
      intro acc res hg hsub h k hk
      rw [collectChildren_cons] at h
      cases hl : lookupA m.groups c with
      | none =>
        simp only [hl] at h
        exact ihc acc res hg
          (fun x hx => hsub x (List.mem_cons_of_mem c hx)) h k hk
      | some gc =>
        simp only [hl] at h
        cases hcol : collect m (n + 1) gc acc with
        | none =>
          simp only [hcol] at h
          exact absurd h (by simp)
        | some mid =>
          simp only [hcol] at h
          rcases ihc mid res hg
            (fun x hx => hsub x (List.mem_cons_of_mem c hx)) h k hk with
            h2 | h2
          · rcases hP c gc acc mid hl hcol k h2 with h3 | ⟨t, hre, hdm⟩
            · exact Or.inl h3
            · have hedge : childEdge m name c :=
                ⟨g, hg, hsub c (List.mem_cons_self c rest), by simp [hl]⟩
              exact Or.inr ⟨t, Relation.ReflTransGen.head hedge hre, hdm⟩
          · exact Or.inr h2

/-- Completeness: with enough fuel, every resolvable direct member of
every group reachable from `name` ends up in the result. -/
lemma collect_complete (m : Manager) (hacy : Acyclic m) :
    ∀ (fuel : Nat) (name : String) (g : Group)
      (acc res : List (String × Host)),
      lookupA m.groups name = some g → rank m name < fuel →
      collect m fuel g acc = some res →
      ∀ k t, Relation.ReflTransGen (childEdge m) name t →
        directMember m t k → k ∈ res.map Prod.fst := by
  intro fuel
  induction fuel with
  | zero =>
    intro name g acc res _ hr
    exact absurd hr (Nat.not_lt_zero _)
  | succ n ih =>
    intro name g acc res hg hr hc k t hreach hdm
    rw [collect_succ] at hc
    rcases Relation.ReflTransGen.cases_head hreach with heq | ⟨b, hedge, hre2⟩
    · subst heq
      obtain ⟨g2, hv, hg2, hkmem, hhost⟩ := hdm
      rw [hg] at hg2
      injection hg2 with hg2
      subst hg2
      have hkeys : k ∈ (addDirect m g acc).map Prod.fst := by
        rw [keys_addDirect]
        exact Or.inr ⟨hkmem, by simp [hhost]⟩
      exact (collect_keys_mono m n).2 _ _ _ hc k hkeys
    · obtain ⟨gx, hgx, hbmem, hbs⟩ := hedge
      rw [hg] at hgx
      injection hgx with hgx
      subst hgx
      obtain ⟨gb, hgb⟩ := Option.isSome_iff_exists.mp hbs
      have hrb : rank m b < n :=
        lt_of_lt_of_le
          (rank_lt_of_edge m hacy ⟨g, hg, hbmem, by simp [hgb]⟩)
          (Nat.lt_succ_iff.mp hr)
      have haux : ∀ (cs : List String) (acc2 res2 : List (String × Host)),
          b ∈ cs → collectChildren m n cs acc2 = some res2 →
          k ∈ res2.map Prod.fst := by
        intro cs
        induction cs with
        | nil =>
          intro acc2 res2 hbin
          exact absurd hbin (List.not_mem_nil b)
        | cons c rest ihc =>
          intro acc2 res2 hbin hcc
          rw [collectChildren_cons] at hcc
          by_cases hcb : c = b
          · rw [hcb] at hcc
            simp only [hgb] at hcc
            cases hcol : collect m n gb acc2 with
            | none =>
              simp only [hcol] at hcc
              exact absurd hcc (by simp)
            | some mid =>
              simp only [hcol] at hcc
              have hkmid : k ∈ mid.map Prod.fst :=
                ih b gb acc2 mid hgb hrb hcol k t hre2 hdm
              exact (collect_keys_mono m n).2 rest mid res2 hcc k hkmid
          · have hbrest : b ∈ rest :=
              (List.mem_cons.mp hbin).resolve_left
                (fun hh => hcb hh.symm)
            cases hl : lookupA m.groups c with
            | none =>
              simp only [hl] at hcc
              exact ihc acc2 res2 hbrest hcc
            | some gc =>
              simp only [hl] at hcc
              cases hcol : collect m n gc acc2 with
              | none =>
                simp only [hcol] at hcc
                exact absurd hcc (by simp)
              | some mid =>
                simp only [hcol] at hcc
                exact ihc mid res2 hbrest hcc
      exact haux g.ChildGroupNames (addDirect m g acc) res hbmem hc

/-- Two groups listing each other as children: the configuration the
spec flags as causing unbounded recursion. -/
def groupCycA : Group :=
  { typeTag := "group", Name := "a", Description := "", HostIDs := [],
    Vars := [], ChildGroupNames := ["b"] }

def groupCycB : Group :=
  { typeTag := "group", Name := "b", Description := "", HostIDs := [],
    Vars := [], ChildGroupNames := ["a"] }

def cyclicMgr : Manager :=
  { credentials := [], hosts := [],
    groups := [("a", groupCycA), ("b", groupCycB)], disk := [] }

/-- On the two-cycle, the traversal exhausts every fuel bound: the
unguarded Go recursion never returns. -/
lemma cyclic_collect_none : ∀ (fuel : Nat) (acc : List (String × Host)),
    collect cyclicMgr fuel groupCycA acc = none ∧
    collect cyclicMgr fuel groupCycB acc = none := by
  intro fuel
  induction fuel with
  | zero =>
    intro acc
    exact ⟨collect_zero cyclicMgr groupCycA acc,
      collect_zero cyclicMgr groupCycB acc⟩
  | succ n ih =>
    intro acc
    constructor
    · rw [collect_succ]
      show collectChildren cyclicMgr n ["b"] acc = none
      rw [collectChildren_cons]
      have hlb : lookupA cyclicMgr.groups "b" = some groupCycB := by decide
      simp only [hlb, (ih acc).2]
    · rw [collect_succ]
      show collectChildren cyclicMgr n ["a"] acc = none
      rw [collectChildren_cons]
      have hla : lookupA cyclicMgr.groups "a" = some groupCycA := by decide
      simp only [hla, (ih acc).1]

/-- C6: for every group present in a manager whose child-group relation
is acyclic, the traversal of `GetAllHostsInGroup` terminates — beyond a
fuel bound it returns one fixed result — and that result is exactly the
union, deduplicated by host id, of the resolvable direct members of
every group reachable (reflexively-transitively) through child-group
links, each paired with its host-map entry; and on the concrete cyclic
two-group configuration the unguarded recursion exceeds every fuel
bound. -/
theorem GetAllHostsInGroup_characterization :
    (∀ (m : Manager) (name : String) (g : Group),
        Acyclic m → lookupA m.groups name = some g →
        ∃ (N : Nat) (res : List (String × Host)),
          (∀ fuel, N ≤ fuel →
            Manager.GetAllHostsInGroup m fuel name = Except.ok (some res)) ∧
          (∀ k, k ∈ res.map Prod.fst ↔
            ∃ t, Relation.ReflTransGen (childEdge m) name t ∧
              directMember m t k) ∧
          (∀ k h, (k, h) ∈ res → lookupA m.hosts k = some h) ∧
          (res.map Prod.fst).Nodup)
    ∧ (∀ fuel, Manager.GetAllHostsInGroup cyclicMgr fuel "a" =
        Except.ok none) := by
  constructor
  · intro m name g hacy hg
    obtain ⟨res, hres⟩ := collect_terminates m hacy (rank m name + 1)
      name g [] hg (Nat.lt_succ_self _)
    refine ⟨rank m name + 1, res, ?_, ?_, ?_, ?_⟩
    · intro fuel hle
      unfold Manager.GetAllHostsInGroup
      simp only [hg, collect_mono_le m hle g [] res hres]
    · intro k
      constructor
      · intro hk
        rcases (collect_sound m (rank m name + 1)).1 name g [] res hg
          hres k hk with h2 | h2
        · simp at h2
        · exact h2
      · rintro ⟨t, hre, hdm⟩
        exact collect_complete m hacy (rank m name + 1) name g [] res hg
          (Nat.lt_succ_self _) hres k t hre hdm
    · intro k h hm
      rcases (collect_values m (rank m name + 1)).1 g [] res hres k h hm
        with h2 | h2
      · simp at h2
      · exact h2
    · exact (collect_keys_nodup m (rank m name + 1)).1 g [] res hres
        (by simp)
  · intro fuel
    unfold Manager.GetAllHostsInGroup
    have hla : lookupA cyclicMgr.groups "a" = some groupCycA := by decide
    simp only [hla, (cyclic_collect_none fuel []).1]

lemma mgrSolo_acyclic : Acyclic mgrSolo := by
  have hnoedge : ∀ a b, ¬ childEdge mgrSolo a b := by
    rintro a b ⟨g, hg, hmem, _⟩
    simp only [mgrSolo, lookupA] at hg
    by_cases ha : "solo" = a
    · rw [if_pos ha] at hg
      injection hg with hg
      subst hg
      exact absurd hmem (List.not_mem_nil b)
    · rw [if_neg ha] at hg
      exact Option.noConfusion hg
  intro a h
  cases h with
  | single he => exact hnoedge _ _ he
  | tail _ he => exact hnoedge _ _ he

theorem GetAllHostsInGroup_characterization_witness :
    Acyclic mgrSolo ∧
    lookupA mgrSolo.groups "solo" = some groupSolo ∧
    (∃ (N : Nat) (res : List (String × Host)),
      (∀ fuel, N ≤ fuel →
        Manager.GetAllHostsInGroup mgrSolo fuel "solo" =
          Except.ok (some res)) ∧
      (∀ k, k ∈ res.map Prod.fst ↔
        ∃ t, Relation.ReflTransGen (childEdge mgrSolo) "solo" t ∧
          directMember mgrSolo t k) ∧
      (∀ k h, (k, h) ∈ res → lookupA mgrSolo.hosts k = some h) ∧
      (res.map Prod.fst).Nodup) :=
  ⟨mgrSolo_acyclic, by decide,
   GetAllHostsInGroup_characterization.1 mgrSolo "solo" groupSolo
     mgrSolo_acyclic (by decide)⟩

end Gossher
